import Mathlib

/-! # exercism CLI core: API client and config store

A shallow embedding of `api/client.go` and `config/config.go`.

Go strings are modelled by `String`; the standard-library routines the two
files call (`strings`, `path/filepath` in its Unix build, `regexp` for the one
pattern that is used, `net/http` request construction) are modelled next to
them, following the library sources.  The network, the JSON codec, the
operating system with its file system, the working directory and the
package-level variables are explicit parameters.
-/

/-! ## Go errors -/

/-- A Go `error` value.  `ext` is an error produced outside the two packages
(transport, JSON decoder, operating system, `net/http`), identified by a tag;
`errorf` is the value built by `fmt.Errorf` from a format without `%w`. -/
inductive GoError where
  | ext (tag : Nat) (msg : String)
  | errorf (msg : String)
  deriving DecidableEq, Repr

/-- The `Error()` method. -/
def GoError.Error : GoError → String
  | .ext _ msg => msg
  | .errorf msg => msg

/-! ## package strings -/

namespace strings

/-- Go `strings.HasPrefix`. -/
def HasPrefix (s pre : String) : Bool :=
  pre.data.isPrefixOf s.data

/-- Worker of `Replace`: replaces the first `n` non-overlapping occurrences of
`old` by `new`, scanning left to right.  With `old` empty an occurrence is
found before every character and at the end.  The first argument bounds the
number of scan steps. -/
def replaceAux (old new : List Char) : Nat → Nat → List Char → List Char
  | 0, _, s => s
  | _ + 1, 0, s => s
  | _ + 1, _ + 1, [] => if old.isEmpty then new else []
  | fuel + 1, n + 1, c :: cs =>
    if old.isEmpty then new ++ c :: replaceAux old new fuel n cs
    else if old.isPrefixOf (c :: cs) then
      new ++ replaceAux old new fuel n ((c :: cs).drop old.length)
    else c :: replaceAux old new fuel (n + 1) cs

/-- Go `strings.Replace(s, old, new, n)` for a count `n ≥ 0`. -/
def Replace (s old new : String) (n : Nat) : String :=
  String.mk (replaceAux old.data new.data (s.data.length + 1) n s.data)

/-- Go `strings.Join`. -/
def Join (elems : List String) (sep : String) : String :=
  sep.intercalate elems

end strings

/-! ## package path/filepath (Unix build) -/

namespace filepath

/-- The path separator of the Unix build. -/
def Separator : Char := '/'

/-- Go `os.IsPathSeparator` on Unix. -/
def IsPathSeparator (c : Char) : Bool := c == Separator

/-- Whether the unread input starts with a separator. -/
def startsSep : List Char → Bool
  | [] => false
  | c :: _ => IsPathSeparator c

/-- The inner loop of the `..` case of `Clean`, started after `out.w--`:
`for out.w > dotdot && !os.IsPathSeparator(out.index(out.w)) { out.w-- }`.
Returns the final write index. -/
def scanBack (out : List Char) (dotdot : Nat) : Nat → Nat
  | 0 => 0
  | w + 1 =>
    if w + 1 > dotdot && !IsPathSeparator (out.getD (w + 1) Separator) then
      scanBack out dotdot w
    else w + 1

/-- The main loop of `Clean`.  The second list is the unread input
`path[r:]`, `out` is the written buffer (`out.w = out.length`) and `dotdot` the
index where `..` must stop.  Every iteration reads at least one byte, so the
length of the path is enough fuel. -/
def cleanLoop (rooted : Bool) : Nat → List Char → List Char → Nat → List Char
  | 0, _, out, _ => out
  | _ + 1, [], out, _ => out
  | fuel + 1, c :: rest, out, dotdot =>
    if IsPathSeparator c then
      -- empty path element
      cleanLoop rooted fuel rest out dotdot
    else if c == '.' && (rest.isEmpty || startsSep rest) then
      -- . element
      cleanLoop rooted fuel rest out dotdot
    else if c == '.' && rest.head? == some '.' &&
        (rest.tail.isEmpty || startsSep rest.tail) then
      -- .. element: remove to last separator
      if out.length > dotdot then
        cleanLoop rooted fuel rest.tail
          (out.take (scanBack out dotdot (out.length - 1))) dotdot
      else if !rooted then
        let out1 := if out.length > 0 then out ++ [Separator] else out
        let out2 := out1 ++ ['.', '.']
        cleanLoop rooted fuel rest.tail out2 out2.length
      else cleanLoop rooted fuel rest.tail out dotdot
    else
      -- real path element: add slash if needed, copy element
      let out1 :=
        if (rooted && out.length != 1) || (!rooted && out.length != 0) then
          out ++ [Separator]
        else out
      cleanLoop rooted fuel
        ((c :: rest).dropWhile (fun x => !IsPathSeparator x))
        (out1 ++ (c :: rest).takeWhile (fun x => !IsPathSeparator x)) dotdot

/-- Go `filepath.Clean` (Unix: no volume name, `FromSlash` is the identity). -/
def Clean (path : String) : String :=
  match path.data with
  | [] => "."
  | c :: rest =>
    let rooted := IsPathSeparator c
    let out :=
      if rooted then cleanLoop rooted (rest.length + 1) rest [Separator] 1
      else cleanLoop rooted (rest.length + 1) (c :: rest) [] 0
    if out.isEmpty then "." else String.mk out

/-- Go `filepath.Join` (Unix): the elements from the first non-empty one on
are joined with the separator and cleaned; all empty gives the empty string. -/
def Join : List String → String
  | [] => ""
  | e :: rest =>
    if e != "" then Clean (strings.Join (e :: rest) (String.singleton Separator))
    else Join rest

/-- Go `filepath.IsAbs` (Unix). -/
def IsAbs (path : String) : Bool :=
  strings.HasPrefix path "/"

end filepath

/-! ## package config -/

namespace config

/-- The match of the pattern `^(https?://[^/]*).*` at the start of the input,
as `(group 1, text after the whole match)`.  A negated class matches a
newline, the dot does not, so `.*` ends at the first newline after the host. -/
def matchSite (s : List Char) : Option (List Char × List Char) :=
  let scheme? : Option (List Char) :=
    if "https://".data.isPrefixOf s then some "https://".data
    else if "http://".data.isPrefixOf s then some "http://".data
    else none
  match scheme? with
  | none => none
  | some scheme =>
    let after := s.drop scheme.length
    let host := after.takeWhile (fun x => x != '/')
    let tail := after.dropWhile (fun x => x != '/')
    some (scheme ++ host, tail.dropWhile (fun x => x != '\n'))

/-- Go `InferSiteURL`: `re.ReplaceAllString(apiURL, "$1")` replaces the one
possible match (the pattern is anchored at the start of the text) by its first
group and copies the text that the match did not cover. -/
def InferSiteURL (apiURL : String) : String :=
  if apiURL == "https://api.exercism.io/v1" then "https://exercism.io"
  else
    match matchSite apiURL.data with
    | none => apiURL
    | some (g1, unmatched) => String.mk (g1 ++ unmatched)

/-- Go `Resolve`.  `getwd` is the outcome of `os.Getwd()`. -/
def Resolve (getwd : Except GoError String) (path home : String) : String :=
  if path == "" then ""
  else if strings.HasPrefix path "~/" then
    let path := strings.Replace path "~/" "" 1
    filepath.Join [home, path]
  else if filepath.IsAbs path then filepath.Clean path
  -- if using "/dir" on Windows
  else if strings.HasPrefix path "/" then
    filepath.Join [home, filepath.Clean path]
  else
    match getwd with
    | .error _ => path
    | .ok cwd => filepath.Join [cwd, path]

end config

/-! ## package net/http -/

namespace http

/-- Go `http.Header`, a map from (canonical) key to the list of its values. -/
abbrev Header := List (String × List String)

/-- Go `Header.Set`: the key is bound to the single value, replacing whatever
it was bound to.  The keys set by this program are written in canonical form
already, so key canonicalisation is the identity on them. -/
def Header.Set (h : Header) (key value : String) : Header :=
  (key, [value]) :: h.filter (fun kv => kv.1 != key)

/-- The values bound to a key, `none` when the header is absent. -/
def Header.Values (h : Header) (key : String) : Option (List String) :=
  h.lookup key

/-- Go `Header.Get`: the first value of the key, or the empty string. -/
def Header.Get (h : Header) (key : String) : String :=
  match h.lookup key with
  | some (v :: _) => v
  | _ => ""

/-- Go `http.Request`, reduced to the fields this program touches. -/
structure Request where
  Method : String
  URL : String
  Header : Header
  Body : Option String
  deriving DecidableEq, Repr

/-- Go `http.Response`, reduced to the fields this program touches. -/
structure Response where
  StatusCode : Int
  Status : String
  Body : String
  deriving DecidableEq, Repr

/-- Go `http.StatusNoContent`. -/
def StatusNoContent : Int := 204
/-- Go `http.StatusUnauthorized`. -/
def StatusUnauthorized : Int := 401
/-- Go `http.StatusInternalServerError`. -/
def StatusInternalServerError : Int := 500

/-- Go `http.NewRequest`.  `invalid method url` is the error with which the
library rejects a malformed method or URL (`none` when both are accepted); an
empty method means GET and the new request starts with an empty header. -/
def NewRequest (invalid : String → String → Option GoError)
    (method url : String) (body : Option String) : Except GoError Request :=
  let method := if method == "" then "GET" else method
  match invalid method url with
  | some err => .error err
  | none => .ok { Method := method, URL := url, Header := [], Body := body }

end http

/-! ## package debug -/

/-- What the program does to the outside world during `Do`, in order. -/
inductive Event where
  | DumpRequest (req : http.Request)
  | ClientDo (req : http.Request)
  | DumpResponse (res : http.Response)
  | Decode
  | BodyClose
  deriving DecidableEq, Repr

namespace debug

/-- Modelled from the spec: package `debug` is not among the sources.  The
spec describes the tracer as a best-effort diagnostic collaborator that is
handed the outgoing request and cannot affect the outcome of the call; here a
call appends one event to the log. -/
def DumpRequest (req : http.Request) (log : List Event) : List Event :=
  log ++ [Event.DumpRequest req]

/-- Modelled from the spec: package `debug` is not among the sources.  The
tracer is handed the incoming response and cannot affect the outcome of the
call; here a call appends one event to the log. -/
def DumpResponse (res : http.Response) (log : List Event) : List Event :=
  log ++ [Event.DumpResponse res]

end debug

/-! ## package api -/

namespace api

/-- The `Do` method of the embedded `*http.Client`: one round trip. -/
abbrev Transport := http.Request → Except GoError http.Response

/-- What surrounds the package: its two package-level variables, the check
that `http.NewRequest` makes, and `json.NewDecoder(body).Decode(v)` as a
function from the body and the target to the target afterwards and the error,
if any.  `V` is the type of decode targets. -/
structure Env (V : Type) where
  UserAgent : String
  DefaultHTTPClient : Transport
  invalidRequest : String → String → Option GoError
  jsonDecode : String → V → V × Option GoError

set_option linter.dupNamespace false in
/-- Go `Client`; the embedded `*http.Client` is `none` when nil. -/
structure Client where
  Client : Option Transport
  ContentType : String
  Token : String
  BaseURL : String

/-- The result of a call that may hit a nil pointer. -/
inductive Outcome (α : Type) where
  | panic
  | ret (a : α)

/-- The two results of `Do`, the decode target afterwards and the log. -/
structure DoResult (V : Type) where
  res : Option http.Response
  err : Option GoError
  v : Option V
  log : List Event

/-- Go `NewClient`. -/
def NewClient {V : Type} (env : Env V) (token baseURL : String) :
    Client × Option GoError :=
  ({ Client := some env.DefaultHTTPClient, ContentType := "", Token := token,
     BaseURL := baseURL }, none)

/-- Go `(*Client).NewRequest`: the client afterwards (its transport is
defaulted when nil) and the request or the error. -/
def NewRequest {V : Type} (env : Env V) (c : Client) (method url : String)
    (body : Option String) : Client × Except GoError http.Request :=
  let c : Client :=
    if c.Client.isNone then { c with Client := some env.DefaultHTTPClient } else c
  match http.NewRequest env.invalidRequest method url body with
  | .error err => (c, .error err)
  | .ok req =>
    let h := req.Header.Set "User-Agent" env.UserAgent
    let h :=
      if c.ContentType == "" then h.Set "Content-Type" "application/json"
      else h.Set "Content-Type" c.ContentType
    let h :=
      if c.Token != "" then h.Set "Authorization" ("Bearer " ++ c.Token) else h
    (c, .ok { req with Header := h })

/-- Go `(*Client).Do`. -/
def Do {V : Type} (env : Env V) (c : Client) (req : http.Request)
    (v : Option V) : Outcome (DoResult V) :=
  let log := debug.DumpRequest req []
  match c.Client with
  | none => .panic
  | some client =>
    let log := log ++ [Event.ClientDo req]
    match client req with
    | .error err => .ret { res := none, err := some err, v := v, log := log }
    | .ok res =>
      let log := debug.DumpResponse res log
      if res.StatusCode = http.StatusNoContent then
        .ret { res := some res, err := none, v := v, log := log }
      else if res.StatusCode = http.StatusInternalServerError then
        .ret { res := none, err := some (.errorf res.Status), v := v, log := log }
      else if res.StatusCode = http.StatusUnauthorized then
        let siteURL := config.InferSiteURL c.BaseURL
        .ret { res := none,
               err := some (.errorf
                 ("unauthorized request. Please run the configure command. You can find your API token at "
                   ++ siteURL ++ "/my/settings")),
               v := v, log := log }
      else
        match v with
        | none => .ret { res := some res, err := none, v := none, log := log }
        | some target =>
          match env.jsonDecode res.Body target with
          | (target1, some err) =>
            .ret { res := none,
                   err := some (.errorf ("unable to parse API response - " ++ err.Error)),
                   v := some target1, log := log ++ [Event.Decode, Event.BodyClose] }
          | (target1, none) =>
            .ret { res := some res, err := none, v := some target1,
                   log := log ++ [Event.Decode, Event.BodyClose] }

/-- Go `(*Client).ValidateToken`: the client afterwards and the error. -/
def ValidateToken {V : Type} (env : Env V) (c : Client) :
    Client × Outcome (Option GoError) :=
  let url := c.BaseURL ++ "/validate_token"
  match NewRequest env c "GET" url none with
  | (c, .error err) => (c, .ret (some err))
  | (c, .ok req) =>
    match Do env c req none with
    | .panic => (c, .panic)
    | .ret r => (c, .ret r.err)

/-- The transport that a client uses once `NewRequest` has run. -/
def transportOf {V : Type} (env : Env V) (c : Client) : Transport :=
  c.Client.getD env.DefaultHTTPClient

end api

/-! ## package path/filepath: `Dir` and `Base` -/

namespace filepath

/-- Go `filepath.Dir` (Unix): the path up to and including its last separator,
cleaned. -/
def Dir (path : String) : String :=
  Clean (String.mk (path.data.rdropWhile (fun x => !IsPathSeparator x)))

/-- Go `filepath.Base` (Unix): trailing separators are stripped and the last
element is returned; "." for the empty path, the separator for a path of
separators only. -/
def Base (path : String) : String :=
  if path == "" then "."
  else
    let p := path.data.rdropWhile IsPathSeparator
    let last := p.rtakeWhile (fun x => !IsPathSeparator x)
    if last.isEmpty then String.singleton Separator else String.mk last

end filepath

/-! ## package path/filepath (Windows build): `IsAbs` -/

namespace filepath

/-- Go `isSlash` of the Windows build. -/
def isSlash (c : Char) : Bool := c == '\\' || c == '/'

/-- Go `volumeNameLen` of the Windows build, for drive-letter volumes: 2 for a
path that starts with a letter and a colon, 0 for any other path.  UNC
volumes, which start with two slashes, are not modelled. -/
def volumeNameLen (path : List Char) : Nat :=
  match path with
  | c :: ':' :: _ =>
    if (decide ('a' ≤ c) && decide (c ≤ 'z')) || (decide ('A' ≤ c) && decide (c ≤ 'Z'))
    then 2 else 0
  | _ => 0

/-- Go `filepath.IsAbs` of the Windows build, on paths without a UNC volume:
the path has a volume name and a slash follows it. -/
def IsAbsWindows (path : String) : Bool :=
  let l := volumeNameLen path.data
  if l == 0 then false
  else
    match path.data.drop l with
    | [] => false
    | c :: _ => isSlash c

end filepath

/-! ## `Clean`, element by element

The loop of `Clean` handles one path element per round.  `bufStep` is that
round on the buffer, `absStep` the same round on the list of elements kept;
the theorems below show that the loop is a fold of `bufStep` over the elements
of the input and that the two agree. -/

namespace filepath

/-- The path elements of a string: the pieces between separators. -/
def splitSep : List Char → List (List Char)
  | [] => [[]]
  | c :: cs =>
    if IsPathSeparator c then [] :: splitSep cs
    else
      match splitSep cs with
      | [] => [[c]]
      | e :: es => (c :: e) :: es

/-- One round of the loop of `Clean` on a whole path element `e`, on the
buffer and the `dotdot` index. -/
def bufStep (rooted : Bool) (st : List Char × Nat) (e : List Char) :
    List Char × Nat :=
  if e = [] ∨ e = ['.'] then st
  else if e = ['.', '.'] then
    if st.1.length > st.2 then
      (st.1.take (scanBack st.1 st.2 (st.1.length - 1)), st.2)
    else if !rooted then
      let out1 := if st.1.length > 0 then st.1 ++ [Separator] else st.1
      let out2 := out1 ++ ['.', '.']
      (out2, out2.length)
    else st
  else
    let out1 :=
      if (rooted && st.1.length != 1) || (!rooted && st.1.length != 0) then
        st.1 ++ [Separator]
      else st.1
    (out1 ++ e, st.2)

/-- The elements joined by single separators. -/
def joinSep : List (List Char) → List Char
  | [] => []
  | [e] => e
  | e :: e1 :: es => e ++ Separator :: joinSep (e1 :: es)

/-- One round of the loop of `Clean` on the element `e`, on the number of
leading `..` elements and the list of the elements kept after them. -/
def absStep (rooted : Bool) (st : Nat × List (List Char)) (e : List Char) :
    Nat × List (List Char) :=
  if e = [] ∨ e = ['.'] then st
  else if e = ['.', '.'] then
    if st.2 ≠ [] then (st.1, st.2.dropLast)
    else if !rooted then (st.1 + 1, [])
    else st
  else (st.1, st.2 ++ [e])

/-- The buffer that stands for a state of `absStep`. -/
def render (rooted : Bool) (st : Nat × List (List Char)) : List Char :=
  (if rooted then [Separator] else []) ++
    joinSep (List.replicate st.1 ['.', '.'] ++ st.2)

/-- The elements that `Clean` keeps of an input. -/
def cleanElems (rooted : Bool) (inp : List Char) : Nat × List (List Char) :=
  (splitSep inp).foldl (absStep rooted) (0, [])

/-- A path element that `Clean` keeps as it is: not empty, neither `.` nor
`..`, and without a separator. -/
def Regular (e : List Char) : Prop :=
  e ≠ [] ∧ e ≠ ['.'] ∧ e ≠ ['.', '.'] ∧ ∀ c ∈ e, IsPathSeparator c = false

end filepath

/-! ## package os -/

namespace os

/-- A call of the program into the operating system. -/
inductive Call where
  | Stat (name : String)
  | MkdirAll (path : String) (perm : Nat)
  | WriteFile (name : String) (data : String) (perm : Nat)
  deriving DecidableEq, Repr

/-- The operating system as `Write` uses it, over filesystem states `σ`:
`os.Stat` (only its error is looked at), the classification behind
`os.IsNotExist`, `os.MkdirAll` and `ioutil.WriteFile` as state transformers
that also yield the error, and two observations of a state. -/
structure Sys (σ : Type) where
  Stat : σ → String → Option GoError
  notExist : GoError → Bool
  MkdirAll : σ → String → Nat → σ × Option GoError
  WriteFile : σ → String → String → Nat → σ × Option GoError
  IsDir : σ → String → Bool
  ReadFile : σ → String → Option String

/-- Go `os.IsNotExist`; false on a nil error. -/
def IsNotExist {σ : Type} (sys : Sys σ) : Option GoError → Bool
  | none => false
  | some e => sys.notExist e

/-- What a file system guarantees about a write that succeeded: the file
holds the data written and its parent directory is a directory. -/
def Sys.WriteLaw {σ : Type} (sys : Sys σ) : Prop :=
  ∀ (s s1 : σ) (name data : String) (perm : Nat),
    sys.WriteFile s name data perm = (s1, none) →
    sys.ReadFile s1 name = some data ∧ sys.IsDir s1 (filepath.Dir name) = true

end os

/-! ## package config: `Config` and `Write` -/

namespace config

/-- Go `Config`. -/
structure Config where
  dir : String
  name : String
  deriving DecidableEq, Repr

/-- Go `New`. -/
def New (dir name : String) : Config :=
  { dir := dir, name := name }

/-- Go `(*Config).File`. -/
def Config.File (cfg : Config) : String :=
  filepath.Join [cfg.dir, cfg.name ++ ".json"]

/-- Go interface `filer`, for values of type `α`: the `File` method, and what
`json.Marshal` yields on such a value. -/
structure filer (α : Type) where
  File : α → String
  Marshal : α → Except GoError String

/-- A `Config` as a `filer`: it has no exported field, so it marshals to the
empty object. -/
def Config.filer : filer Config :=
  { File := Config.File, Marshal := fun _ => .ok "{}" }

/-- The filesystem afterwards, the error returned and the calls made. -/
structure WriteResult (σ : Type) where
  fs : σ
  err : Option GoError
  calls : List os.Call

/-- Go `ensureDir`. -/
def ensureDir {σ α : Type} (sys : os.Sys σ) (F : filer α) (f : α) (s : σ) :
    WriteResult σ :=
  let dir := filepath.Dir (F.File f)
  let err := sys.Stat s dir
  if os.IsNotExist sys err then
    let r := sys.MkdirAll s dir 0o755
    { fs := r.1, err := r.2, calls := [.Stat dir, .MkdirAll dir 0o755] }
  else { fs := s, err := err, calls := [.Stat dir] }

/-- Go `Write`. -/
def Write {σ α : Type} (sys : os.Sys σ) (F : filer α) (f : α) (s : σ) :
    WriteResult σ :=
  match F.Marshal f with
  | .error err => { fs := s, err := some err, calls := [] }
  | .ok b =>
    let r := ensureDir sys F f s
    match r.err with
    | some err => { fs := r.fs, err := some err, calls := r.calls }
    | none =>
      let w := sys.WriteFile r.fs (F.File f) b 0o644
      { fs := w.1, err := w.2,
        calls := r.calls ++ [.WriteFile (F.File f) b 0o644] }

/-- The return statements of `Resolve`, in source order. -/
inductive Branch where
  | empty
  | home
  | absolute
  | rooted
  | cwd
  | nocwd
  deriving DecidableEq, Repr

/-- Go `Resolve` with the platform's `filepath.IsAbs` as a parameter, returning
also the return statement that was taken. -/
def ResolveOn (isAbs : String → Bool) (getwd : Except GoError String)
    (path home : String) : Branch × String :=
  if path == "" then (.empty, "")
  else if strings.HasPrefix path "~/" then
    let path := strings.Replace path "~/" "" 1
    (.home, filepath.Join [home, path])
  else if isAbs path then (.absolute, filepath.Clean path)
  -- if using "/dir" on Windows
  else if strings.HasPrefix path "/" then
    (.rooted, filepath.Join [home, filepath.Clean path])
  else
    match getwd with
    | .error _ => (.nocwd, path)
    | .ok cwd => (.cwd, filepath.Join [cwd, path])

end config

/-! ## Sample data -/

namespace sample

/-- A decoder over text targets: an empty body is an unexpected end of input,
any other body is stored in the target. -/
def jsonDecode (body target : String) : String × Option GoError :=
  if body == "" then (target, some (.ext 1 "EOF")) else (body, none)

/-- An environment without network whose library checks accept everything. -/
def env : api.Env String :=
  { UserAgent := "github.com/exercism/cli"
    DefaultHTTPClient := fun _ => .error (.ext 0 "dial tcp: network is unreachable")
    invalidRequest := fun _ _ => none
    jsonDecode := jsonDecode }

/-- A server that answers every request with the given response. -/
def reply (res : http.Response) : api.Transport := fun _ => .ok res

/-- A client talking to `reply res`. -/
def client (res : http.Response) : api.Client :=
  { Client := some (reply res), ContentType := "", Token := "abc123",
    BaseURL := "https://example.org/api/v2" }

/-- A request as `NewRequest` would build it. -/
def req : http.Request :=
  { Method := "GET", URL := "https://example.org/api/v2/tracks",
    Header := [("Content-Type", ["application/json"])], Body := none }

/-- A node of the in-memory file system. -/
inductive Node where
  | dir
  | file (data : String)
  deriving DecidableEq, Repr

/-- An in-memory file system: the nodes by path, latest binding first. -/
abbrev MemFS := List (String × Node)

/-- The error of a missing file. -/
def enoent : GoError := .ext 2 "no such file or directory"

/-- The error of a path that runs through something that is not a directory. -/
def enotdir : GoError := .ext 20 "not a directory"

/-- The in-memory file system as an operating system.  `MkdirAll` binds the
directory unless a file is in the way; `WriteFile` needs the parent to be a
directory and the name not to be one. -/
def memSys : os.Sys MemFS :=
  { Stat := fun s name => if (s.lookup name).isSome then none else some enoent
    notExist := fun e => e == enoent
    MkdirAll := fun s path _ =>
      match s.lookup path with
      | some (.file _) => (s, some enotdir)
      | _ => ((path, .dir) :: s, none)
    WriteFile := fun s name data _ =>
      if s.lookup (filepath.Dir name) == some .dir && s.lookup name != some .dir then
        ((name, .file data) :: s, none)
      else (s, some enotdir)
    IsDir := fun s name => s.lookup name == some .dir
    ReadFile := fun s name =>
      match s.lookup name with
      | some (.file data) => some data
      | _ => none }

/-- The in-memory file system with injected failures: `Stat` and `MkdirAll`
report the given error, when there is one, and leave the state as it is. -/
def faultySys (statErr mkdirErr : Option GoError) : os.Sys MemFS :=
  { memSys with
    Stat := fun s name =>
      match statErr with
      | some e => some e
      | none => memSys.Stat s name
    MkdirAll := fun s path perm =>
      match mkdirErr with
      | some e => (s, some e)
      | none => memSys.MkdirAll s path perm }

/-- The error of a denied access. -/
def eacces : GoError := .ext 13 "permission denied"

/-- A value that cannot be marshalled. -/
def broken : config.filer String :=
  { File := fun _ => "/home/u/.config/exercism/user.json"
    Marshal := fun _ => .error (.ext 3 "json: unsupported type: chan int") }

/-- A value that knows its file and marshals to a fixed text. -/
def settings : config.filer String :=
  { File := fun _ => "/home/u/.config/exercism/user.json"
    Marshal := fun token => .ok ("\x7b\"token\":\"" ++ token ++ "\"\x7d") }

end sample

/-! ## Auxiliary facts -/

theorem hasPrefix_cons_cons (s : String) (a b : Char)
    (h : strings.HasPrefix s (String.mk [a, b]) = true) :
    s.data = a :: b :: s.data.drop 2 := by
  unfold strings.HasPrefix at h
  rcases hs : s.data with _ | ⟨x, _ | ⟨y, r⟩⟩ <;> rw [hs] at h <;>
    simp [List.isPrefixOf] at h
  obtain ⟨rfl, rfl⟩ := h
  simp

theorem hasPrefix_singleton (s : String) (a : Char)
    (h : strings.HasPrefix s (String.mk [a]) = true) :
    s.data = a :: s.data.drop 1 := by
  unfold strings.HasPrefix at h
  rcases hs : s.data with _ | ⟨x, r⟩ <;> rw [hs] at h <;>
    simp [List.isPrefixOf] at h
  subst h
  simp

theorem string_ne_empty_of_data (s : String) (c : Char) (r : List Char)
    (h : s.data = c :: r) : s ≠ "" := by
  intro hs
  rw [hs] at h
  simp at h

/-- The fuel of `cleanLoop` is never the limit: any two amounts that cover the
unread input give the same buffer. -/
theorem cleanLoop_fuel (rooted : Bool) :
    ∀ (f1 f2 : Nat) (inp out : List Char) (dd : Nat),
      inp.length ≤ f1 → inp.length ≤ f2 →
      filepath.cleanLoop rooted f1 inp out dd = filepath.cleanLoop rooted f2 inp out dd := by
  intro f1
  induction f1 with
  | zero =>
    intro f2 inp out dd h1 _
    have : inp = [] := List.length_eq_zero.mp (Nat.le_zero.mp h1)
    subst this
    cases f2 <;> simp [filepath.cleanLoop]
  | succ n ih =>
    intro f2 inp out dd h1 h2
    cases inp with
    | nil => cases f2 <;> simp [filepath.cleanLoop]
    | cons c rest =>
      cases f2 with
      | zero => simp at h2
      | succ m =>
        simp only [List.length_cons, Nat.add_le_add_iff_right] at h1 h2
        have ht1 : rest.tail.length ≤ n := by
          simp only [List.length_tail]; omega
        have ht2 : rest.tail.length ≤ m := by
          simp only [List.length_tail]; omega
        have hd : filepath.IsPathSeparator c = false →
            (List.dropWhile (fun x => !filepath.IsPathSeparator x) (c :: rest)).length
              ≤ rest.length := by
          intro hs
          rw [List.dropWhile_cons]
          simp only [hs, Bool.not_false, if_true]
          exact (List.dropWhile_suffix _).length_le
        simp only [filepath.cleanLoop]
        split_ifs with hs <;>
          first
          | exact ih _ _ _ _ h1 h2
          | exact ih _ _ _ _ ht1 ht2
          | exact ih _ _ _ _ ((hd (by simpa using hs)).trans h1)
              ((hd (by simpa using hs)).trans h2)

/-! ## Status classification in `Do` -/

/-- C1: when the transport call succeeds with a response of status 401, `Do`
returns no response and an error whose message contains
`InferSiteURL(c.BaseURL)` as a substring, whether or not a decode target was
supplied; the target is as before and the body is neither decoded nor closed. -/
theorem Do_unauthorized {V : Type} (env : api.Env V) (c : api.Client)
    (t : api.Transport) (req : http.Request) (v : Option V) (res : http.Response)
    (hc : c.Client = some t) (ht : t req = .ok res) (hs : res.StatusCode = 401) :
    ∃ e : GoError,
      api.Do env c req v = .ret
        { res := none, err := some e, v := v,
          log := [.DumpRequest req, .ClientDo req, .DumpResponse res] } ∧
      (config.InferSiteURL c.BaseURL).data <:+: e.Error.data := by
  refine ⟨.errorf ("unauthorized request. Please run the configure command. You can find your API token at "
      ++ config.InferSiteURL c.BaseURL ++ "/my/settings"), ?_, ?_⟩
  · simp [api.Do, hc, ht, hs, debug.DumpRequest, debug.DumpResponse,
      http.StatusNoContent, http.StatusInternalServerError, http.StatusUnauthorized]
  · simp only [GoError.Error, String.data_append]
    exact List.infix_append _ _ _

/-- Witness of C1 with a non-nil target and a body that would decode. -/
theorem Do_unauthorized_witness :
    ∃ e : GoError,
      api.Do sample.env (sample.client ⟨401, "401 Unauthorized", "{}"⟩) sample.req
          (some "old") = .ret
        { res := none, err := some e, v := some "old",
          log := [.DumpRequest sample.req, .ClientDo sample.req,
                  .DumpResponse ⟨401, "401 Unauthorized", "{}"⟩] } ∧
      (config.InferSiteURL "https://example.org/api/v2").data <:+: e.Error.data :=
  Do_unauthorized sample.env (sample.client ⟨401, "401 Unauthorized", "{}"⟩)
    (sample.reply ⟨401, "401 Unauthorized", "{}"⟩) sample.req (some "old")
    ⟨401, "401 Unauthorized", "{}"⟩ rfl rfl rfl

/-- C2: when the transport call succeeds with a response of status 500, `Do`
returns no response and an error whose message is exactly `res.Status`; the
target, nil or not, is as before and the body is neither decoded nor closed. -/
theorem Do_server_error {V : Type} (env : api.Env V) (c : api.Client)
    (t : api.Transport) (req : http.Request) (v : Option V) (res : http.Response)
    (hc : c.Client = some t) (ht : t req = .ok res) (hs : res.StatusCode = 500) :
    ∃ e : GoError,
      api.Do env c req v = .ret
        { res := none, err := some e, v := v,
          log := [.DumpRequest req, .ClientDo req, .DumpResponse res] } ∧
      e.Error = res.Status := by
  refine ⟨.errorf res.Status, ?_, rfl⟩
  simp [api.Do, hc, ht, hs, debug.DumpRequest, debug.DumpResponse,
    http.StatusNoContent, http.StatusInternalServerError]

/-- Witness of C2 with a non-nil target and a body that would decode. -/
theorem Do_server_error_witness :
    ∃ e : GoError,
      api.Do sample.env (sample.client ⟨500, "500 Internal Server Error", "{}"⟩)
          sample.req (some "old") = .ret
        { res := none, err := some e, v := some "old",
          log := [.DumpRequest sample.req, .ClientDo sample.req,
                  .DumpResponse ⟨500, "500 Internal Server Error", "{}"⟩] } ∧
      e.Error = "500 Internal Server Error" :=
  Do_server_error sample.env (sample.client ⟨500, "500 Internal Server Error", "{}"⟩)
    (sample.reply ⟨500, "500 Internal Server Error", "{}"⟩) sample.req (some "old")
    ⟨500, "500 Internal Server Error", "{}"⟩ rfl rfl rfl

/-- C3: when the transport call succeeds with a response of status 204, `Do`
returns that response with a nil error for every target, nil or not; the
target is as before and the body is neither decoded nor closed. -/
theorem Do_no_content {V : Type} (env : api.Env V) (c : api.Client)
    (t : api.Transport) (req : http.Request) (v : Option V) (res : http.Response)
    (hc : c.Client = some t) (ht : t req = .ok res) (hs : res.StatusCode = 204) :
    api.Do env c req v = .ret
      { res := some res, err := none, v := v,
        log := [.DumpRequest req, .ClientDo req, .DumpResponse res] } := by
  simp [api.Do, hc, ht, hs, debug.DumpRequest, debug.DumpResponse,
    http.StatusNoContent]

/-- Witness of C3 with a non-nil target and a non-empty body. -/
theorem Do_no_content_witness :
    api.Do sample.env (sample.client ⟨204, "204 No Content", "{}"⟩) sample.req
        (some "old") = .ret
      { res := some ⟨204, "204 No Content", "{}"⟩, err := none, v := some "old",
        log := [.DumpRequest sample.req, .ClientDo sample.req,
                .DumpResponse ⟨204, "204 No Content", "{}"⟩] } :=
  Do_no_content sample.env (sample.client ⟨204, "204 No Content", "{}"⟩)
    (sample.reply ⟨204, "204 No Content", "{}"⟩) sample.req (some "old")
    ⟨204, "204 No Content", "{}"⟩ rfl rfl rfl

/-- C4: for a response whose status is none of 204, 500 and 401, `Do` with a
non-nil target decodes the body into the target and then closes the body: when
the decoder reports no error the response is returned with a nil error, when
it reports `err` no response is returned and the error message is
"unable to parse API response - " followed by `err.Error()`.  With a nil
target the response is returned with a nil error and the body is not touched. -/
theorem Do_default {V : Type} (env : api.Env V) (c : api.Client)
    (t : api.Transport) (req : http.Request) (res : http.Response)
    (hc : c.Client = some t) (ht : t req = .ok res)
    (h204 : res.StatusCode ≠ 204) (h500 : res.StatusCode ≠ 500)
    (h401 : res.StatusCode ≠ 401) :
    (∀ target target1 : V, env.jsonDecode res.Body target = (target1, none) →
      api.Do env c req (some target) = .ret
        { res := some res, err := none, v := some target1,
          log := [.DumpRequest req, .ClientDo req, .DumpResponse res,
                  .Decode, .BodyClose] }) ∧
    (∀ (target target1 : V) (err : GoError),
      env.jsonDecode res.Body target = (target1, some err) →
      ∃ e : GoError,
        api.Do env c req (some target) = .ret
          { res := none, err := some e, v := some target1,
            log := [.DumpRequest req, .ClientDo req, .DumpResponse res,
                    .Decode, .BodyClose] } ∧
        e.Error = "unable to parse API response - " ++ err.Error) ∧
    api.Do env c req none = .ret
      { res := some res, err := none, v := none,
        log := [.DumpRequest req, .ClientDo req, .DumpResponse res] } := by
  refine ⟨?_, ?_, ?_⟩
  · intro target target1 hd
    simp [api.Do, hc, ht, h204, h500, h401, hd, debug.DumpRequest,
      debug.DumpResponse, http.StatusNoContent, http.StatusInternalServerError,
      http.StatusUnauthorized]
  · intro target target1 err hd
    refine ⟨.errorf ("unable to parse API response - " ++ err.Error), ?_, rfl⟩
    simp [api.Do, hc, ht, h204, h500, h401, hd, debug.DumpRequest,
      debug.DumpResponse, http.StatusNoContent, http.StatusInternalServerError,
      http.StatusUnauthorized]
  · simp [api.Do, hc, ht, h204, h500, h401, debug.DumpRequest,
      debug.DumpResponse, http.StatusNoContent, http.StatusInternalServerError,
      http.StatusUnauthorized]

/-- Witness of C4 on a 404 response: a body that decodes, an empty body on
which the decoder reports EOF, and a nil target. -/
theorem Do_default_witness :
    api.Do sample.env (sample.client ⟨404, "404 Not Found", "{}"⟩) sample.req
        (some "old") = .ret
      { res := some ⟨404, "404 Not Found", "{}"⟩, err := none, v := some "{}",
        log := [.DumpRequest sample.req, .ClientDo sample.req,
                .DumpResponse ⟨404, "404 Not Found", "{}"⟩, .Decode, .BodyClose] } ∧
    (∃ e : GoError,
      api.Do sample.env (sample.client ⟨404, "404 Not Found", ""⟩) sample.req
          (some "old") = .ret
        { res := none, err := some e, v := some "old",
          log := [.DumpRequest sample.req, .ClientDo sample.req,
                  .DumpResponse ⟨404, "404 Not Found", ""⟩, .Decode, .BodyClose] } ∧
      e.Error = "unable to parse API response - EOF") ∧
    api.Do sample.env (sample.client ⟨404, "404 Not Found", "{}"⟩) sample.req
        none = .ret
      { res := some ⟨404, "404 Not Found", "{}"⟩, err := none, v := none,
        log := [.DumpRequest sample.req, .ClientDo sample.req,
                .DumpResponse ⟨404, "404 Not Found", "{}"⟩] } :=
  ⟨(Do_default sample.env (sample.client ⟨404, "404 Not Found", "{}"⟩)
      (sample.reply ⟨404, "404 Not Found", "{}"⟩) sample.req
      ⟨404, "404 Not Found", "{}"⟩ rfl rfl (by decide) (by decide) (by decide)).1
      "old" "{}" rfl,
   (Do_default sample.env (sample.client ⟨404, "404 Not Found", ""⟩)
      (sample.reply ⟨404, "404 Not Found", ""⟩) sample.req
      ⟨404, "404 Not Found", ""⟩ rfl rfl (by decide) (by decide) (by decide)).2.1
      "old" "old" (.ext 1 "EOF") rfl,
   (Do_default sample.env (sample.client ⟨404, "404 Not Found", "{}"⟩)
      (sample.reply ⟨404, "404 Not Found", "{}"⟩) sample.req
      ⟨404, "404 Not Found", "{}"⟩ rfl rfl (by decide) (by decide) (by decide)).2.2⟩

/-! ## `ValidateToken` and `NewRequest` -/

theorem http_NewRequest_header (invalid : String → String → Option GoError)
    (method url : String) (body : Option String) (req : http.Request)
    (h : http.NewRequest invalid method url body = .ok req) : req.Header = [] := by
  unfold http.NewRequest at h
  simp only at h
  cases hi : invalid (if method == "" then "GET" else method) url with
  | some err => rw [hi] at h; cases h
  | none => rw [hi] at h; cases h; rfl

theorem NewRequest_client {V : Type} (env : api.Env V) (c : api.Client)
    (method url : String) (body : Option String) :
    (api.NewRequest env c method url body).1.Client = some (api.transportOf env c) ∧
    (api.NewRequest env c method url body).1.BaseURL = c.BaseURL := by
  unfold api.NewRequest api.transportOf
  cases hcl : c.Client <;>
    cases hr : http.NewRequest env.invalidRequest method url body <;> simp [hcl]

theorem NewRequest_header {V : Type} (env : api.Env V) (c c1 : api.Client)
    (method url : String) (body : Option String) (req : http.Request)
    (h : api.NewRequest env c method url body = (c1, .ok req)) :
    req.Header =
      if c.Token != "" then
        http.Header.Set
          (if c.ContentType == "" then
            http.Header.Set (http.Header.Set [] "User-Agent" env.UserAgent)
              "Content-Type" "application/json"
          else
            http.Header.Set (http.Header.Set [] "User-Agent" env.UserAgent)
              "Content-Type" c.ContentType)
          "Authorization" ("Bearer " ++ c.Token)
      else
        if c.ContentType == "" then
          http.Header.Set (http.Header.Set [] "User-Agent" env.UserAgent)
            "Content-Type" "application/json"
        else
          http.Header.Set (http.Header.Set [] "User-Agent" env.UserAgent)
            "Content-Type" c.ContentType := by
  unfold api.NewRequest at h
  cases hr : http.NewRequest env.invalidRequest method url body with
  | error err => simp [hr] at h
  | ok r0 =>
    have h0 := http_NewRequest_header env.invalidRequest method url body r0 hr
    cases hcl : c.Client <;> simp [hr, hcl] at h <;>
      obtain ⟨-, rfl⟩ := h <;> simp [h0]

/-- C5: when the GET request to `BaseURL + "/validate_token"` can be built and
the transport answers it with a response of status `s`, `ValidateToken`
returns, and what it returns is nil exactly when `s` is neither 401 nor 500. -/
theorem ValidateToken_nil_iff {V : Type} (env : api.Env V) (c : api.Client)
    (req : http.Request) (res : http.Response)
    (hreq : (api.NewRequest env c "GET" (c.BaseURL ++ "/validate_token") none).2
      = .ok req)
    (hres : api.transportOf env c req = .ok res) :
    ∃ e : Option GoError,
      (api.ValidateToken env c).2 = .ret e ∧
      (e = none ↔ res.StatusCode ≠ 401 ∧ res.StatusCode ≠ 500) := by
  obtain ⟨hcl, -⟩ := NewRequest_client env c "GET" (c.BaseURL ++ "/validate_token") none
  rcases hn : api.NewRequest env c "GET" (c.BaseURL ++ "/validate_token") none
    with ⟨c1, r⟩
  rw [hn] at hreq hcl
  simp only at hreq hcl
  subst hreq
  simp only [api.ValidateToken, hn]
  by_cases h204 : res.StatusCode = 204
  · refine ⟨none, ?_, ?_⟩
    · simp [api.Do, hcl, hres, h204, http.StatusNoContent]
    · simp [h204]
  by_cases h500 : res.StatusCode = 500
  · refine ⟨some (.errorf res.Status), ?_, ?_⟩
    · simp [api.Do, hcl, hres, h500, http.StatusNoContent,
        http.StatusInternalServerError]
    · simp [h500]
  by_cases h401 : res.StatusCode = 401
  · refine ⟨some (.errorf
      ("unauthorized request. Please run the configure command. You can find your API token at "
        ++ config.InferSiteURL c1.BaseURL ++ "/my/settings")), ?_, ?_⟩
    · simp [api.Do, hcl, hres, h401, http.StatusNoContent,
        http.StatusInternalServerError, http.StatusUnauthorized]
    · simp [h401]
  · refine ⟨none, ?_, ?_⟩
    · simp [api.Do, hcl, hres, h204, h500, h401, http.StatusNoContent,
        http.StatusInternalServerError, http.StatusUnauthorized]
    · simp [h500, h401]

/-- Witness of C5: a 403 answer counts as a valid token. -/
theorem ValidateToken_nil_iff_witness :
    ∃ e : Option GoError,
      (api.ValidateToken sample.env (sample.client ⟨403, "403 Forbidden", ""⟩)).2
        = .ret e ∧
      (e = none ↔ (403 : Int) ≠ 401 ∧ (403 : Int) ≠ 500) :=
  ValidateToken_nil_iff sample.env (sample.client ⟨403, "403 Forbidden", ""⟩)
    { Method := "GET", URL := "https://example.org/api/v2/validate_token",
      Header := [("Authorization", ["Bearer abc123"]),
                 ("Content-Type", ["application/json"]),
                 ("User-Agent", ["github.com/exercism/cli"])],
      Body := none }
    ⟨403, "403 Forbidden", ""⟩ rfl rfl

/-- C6: on a request built by `NewRequest`, a non-empty token `t` gives the
Authorization header the single value "Bearer " followed by `t`, and an empty
token leaves the request without an Authorization header. -/
theorem NewRequest_authorization {V : Type} (env : api.Env V) (c c1 : api.Client)
    (method url : String) (body : Option String) (req : http.Request)
    (h : api.NewRequest env c method url body = (c1, .ok req)) :
    (c.Token ≠ "" →
      req.Header.Values "Authorization" = some ["Bearer " ++ c.Token] ∧
      req.Header.Get "Authorization" = "Bearer " ++ c.Token) ∧
    (c.Token = "" → req.Header.Values "Authorization" = none) := by
  rw [NewRequest_header env c c1 method url body req h]
  constructor
  · intro ht
    simp [ht, http.Header.Set, http.Header.Values, http.Header.Get, List.lookup]
  · intro ht
    by_cases hct : c.ContentType = "" <;>
      simp [ht, hct, http.Header.Set, http.Header.Values, List.lookup]

/-- Witness of C6 on a client with token "abc123". -/
theorem NewRequest_authorization_witness :
    (("abc123" : String) ≠ "" →
      http.Header.Values
        [("Authorization", ["Bearer abc123"]), ("Content-Type", ["application/json"]),
         ("User-Agent", ["github.com/exercism/cli"])] "Authorization"
        = some ["Bearer " ++ "abc123"] ∧
      http.Header.Get
        [("Authorization", ["Bearer abc123"]), ("Content-Type", ["application/json"]),
         ("User-Agent", ["github.com/exercism/cli"])] "Authorization"
        = "Bearer " ++ "abc123") ∧
    (("abc123" : String) = "" →
      http.Header.Values
        [("Authorization", ["Bearer abc123"]), ("Content-Type", ["application/json"]),
         ("User-Agent", ["github.com/exercism/cli"])] "Authorization" = none) :=
  NewRequest_authorization sample.env (sample.client ⟨200, "200 OK", "{}"⟩)
    (sample.client ⟨200, "200 OK", "{}"⟩) "GET" "https://example.org/api/v2/tracks"
    none
    { Method := "GET", URL := "https://example.org/api/v2/tracks",
      Header := [("Authorization", ["Bearer abc123"]),
                 ("Content-Type", ["application/json"]),
                 ("User-Agent", ["github.com/exercism/cli"])],
      Body := none }
    rfl

/-- C7: on a request built by `NewRequest`, a non-empty `ContentType` `ct` gives
the Content-Type header the single value `ct`, and an empty `ContentType`
gives it the single value "application/json". -/
theorem NewRequest_content_type {V : Type} (env : api.Env V) (c c1 : api.Client)
    (method url : String) (body : Option String) (req : http.Request)
    (h : api.NewRequest env c method url body = (c1, .ok req)) :
    (c.ContentType ≠ "" →
      req.Header.Values "Content-Type" = some [c.ContentType] ∧
      req.Header.Get "Content-Type" = c.ContentType) ∧
    (c.ContentType = "" →
      req.Header.Values "Content-Type" = some ["application/json"] ∧
      req.Header.Get "Content-Type" = "application/json") := by
  rw [NewRequest_header env c c1 method url body req h]
  constructor
  · intro hct
    by_cases ht : c.Token = "" <;>
      simp [ht, hct, http.Header.Set, http.Header.Values, http.Header.Get,
        List.lookup]
  · intro hct
    by_cases ht : c.Token = "" <;>
      simp [ht, hct, http.Header.Set, http.Header.Values, http.Header.Get,
        List.lookup]

/-- Witness of C7 on a client with a content type of its own. -/
theorem NewRequest_content_type_witness :
    (("text/plain" : String) ≠ "" →
      http.Header.Values
        [("Authorization", ["Bearer abc123"]), ("Content-Type", ["text/plain"]),
         ("User-Agent", ["github.com/exercism/cli"])] "Content-Type"
        = some ["text/plain"] ∧
      http.Header.Get
        [("Authorization", ["Bearer abc123"]), ("Content-Type", ["text/plain"]),
         ("User-Agent", ["github.com/exercism/cli"])] "Content-Type"
        = "text/plain") ∧
    (("text/plain" : String) = "" →
      http.Header.Values
        [("Authorization", ["Bearer abc123"]), ("Content-Type", ["text/plain"]),
         ("User-Agent", ["github.com/exercism/cli"])] "Content-Type"
        = some ["application/json"] ∧
      http.Header.Get
        [("Authorization", ["Bearer abc123"]), ("Content-Type", ["text/plain"]),
         ("User-Agent", ["github.com/exercism/cli"])] "Content-Type"
        = "application/json") :=
  NewRequest_content_type sample.env
    { sample.client ⟨200, "200 OK", "{}"⟩ with ContentType := "text/plain" }
    { sample.client ⟨200, "200 OK", "{}"⟩ with ContentType := "text/plain" }
    "POST" "https://example.org/api/v2/solutions" (some "{}")
    { Method := "POST", URL := "https://example.org/api/v2/solutions",
      Header := [("Authorization", ["Bearer abc123"]),
                 ("Content-Type", ["text/plain"]),
                 ("User-Agent", ["github.com/exercism/cli"])],
      Body := some "{}" }
    rfl

/-! ## `Resolve` -/

/-- C8: for a path that begins with "~/", `Resolve` is the join of `home` with
what follows that leading "~/" (the rest of the path is kept as it is),
whatever the working directory or the failure to determine it. -/
theorem Resolve_home (getwd : Except GoError String) (path home : String)
    (h : strings.HasPrefix path "~/" = true) :
    config.Resolve getwd path home
      = filepath.Join [home, String.mk (path.data.drop 2)] := by
  have hd := hasPrefix_cons_cons path '~' '/' h
  have hne := string_ne_empty_of_data path _ _ hd
  have hrep : strings.Replace path "~/" "" 1 = String.mk (path.data.drop 2) := by
    unfold strings.Replace
    rw [hd]
    simp [strings.replaceAux, List.isPrefixOf]
  simp [config.Resolve, hne, h, hrep]

/-- Witness of C8: `Resolve("~/foo", "/home/u")` is "/home/u/foo", and a later
"~/" is kept. -/
theorem Resolve_home_witness :
    config.Resolve (.ok "/srv/www") "~/foo" "/home/u" = "/home/u/foo" ∧
    config.Resolve (.error (.ext 2 "getwd: no such file or directory")) "~/a/~/b"
      "/home/u" = "/home/u/a/~/b" :=
  ⟨(Resolve_home (.ok "/srv/www") "~/foo" "/home/u" (by decide)).trans (by decide),
   (Resolve_home (.error (.ext 2 "getwd: no such file or directory")) "~/a/~/b"
      "/home/u" (by decide)).trans (by decide)⟩

/-- C9: for an absolute path (one that begins with "/"), `Resolve` is
`filepath.Clean` of the path, whatever `home` and the working directory. -/
theorem Resolve_absolute (getwd : Except GoError String) (path home : String)
    (h : strings.HasPrefix path "/" = true) :
    config.Resolve getwd path home = filepath.Clean path := by
  have hd := hasPrefix_singleton path '/' h
  have hne := string_ne_empty_of_data path _ _ hd
  have hno : strings.HasPrefix path "~/" = false := by
    unfold strings.HasPrefix
    rw [hd]
    simp [List.isPrefixOf]
  simp [config.Resolve, hne, hno, filepath.IsAbs, h]

/-- Witness of C9: `Resolve("/abs/path", "/home/u")` is "/abs/path", and
repeated separators are collapsed. -/
theorem Resolve_absolute_witness :
    config.Resolve (.ok "/srv/www") "/abs/path" "/home/u" = "/abs/path" ∧
    config.Resolve (.ok "/srv/www") "/home/alice///foobar" "" = "/home/alice/foobar" :=
  ⟨(Resolve_absolute (.ok "/srv/www") "/abs/path" "/home/u" (by decide)).trans
      (by decide),
   (Resolve_absolute (.ok "/srv/www") "/home/alice///foobar" "" (by decide)).trans
      (by decide)⟩

/-- C10, as stated, fails on a platform with drive letters: `C:\foo` is not
empty and begins with neither "~/" nor a separator, yet with the Windows
`IsAbs` and a known working directory `Resolve` returns through the branch for
absolute paths, and the result is the cleaned path, not its join with the
working directory. -/
theorem Resolve_relative_fails_on_drive_path :
    (("C:\\foo" : String) ≠ "" ∧
      strings.HasPrefix "C:\\foo" "~/" = false ∧
      strings.HasPrefix "C:\\foo" "/" = false ∧
      strings.HasPrefix "C:\\foo" "\\" = false) ∧
    config.ResolveOn filepath.IsAbsWindows (.ok "C:\\work") "C:\\foo" "C:\\Users\\u"
      = (.absolute, filepath.Clean "C:\\foo") ∧
    (config.ResolveOn filepath.IsAbsWindows (.ok "C:\\work") "C:\\foo"
        "C:\\Users\\u").2
      ≠ filepath.Join ["C:\\work", "C:\\foo"] := by
  decide

/-- C10, amended: for a non-empty path that begins with neither "~/" nor "/"
and that the platform's `IsAbs` does not report as absolute, `Resolve` returns
through the working-directory branch: the join of the working directory and
the path when the working directory is known, the path itself when it is not;
`home` plays no part.  On the Unix build, where `IsAbs` is the test for a
leading "/", this holds for every non-empty path that begins with neither "~/"
nor "/". -/
theorem Resolve_relative (isAbs : String → Bool) (path home : String)
    (hne : path ≠ "")
    (h1 : strings.HasPrefix path "~/" = false)
    (h2 : strings.HasPrefix path "/" = false)
    (habs : isAbs path = false) :
    (∀ cwd : String,
      config.ResolveOn isAbs (.ok cwd) path home
        = (.cwd, filepath.Join [cwd, path])) ∧
    (∀ err : GoError,
      config.ResolveOn isAbs (.error err) path home = (.nocwd, path)) ∧
    (∀ cwd : String,
      config.Resolve (.ok cwd) path home = filepath.Join [cwd, path]) ∧
    (∀ err : GoError, config.Resolve (.error err) path home = path) := by
  refine ⟨?_, ?_, ?_, ?_⟩
  · intro cwd
    simp [config.ResolveOn, hne, h1, h2, habs]
  · intro err
    simp [config.ResolveOn, hne, h1, h2, habs]
  · intro cwd
    simp [config.Resolve, hne, h1, h2, filepath.IsAbs]
  · intro err
    simp [config.Resolve, hne, h1, h2, filepath.IsAbs]

/-- Witness of C10, amended: "~user/x" under a known working directory and "~"
alone under an unknown one on the Unix build, and a relative path with the
Windows `IsAbs`. -/
theorem Resolve_relative_witness :
    config.Resolve (.ok "/srv/www") "~user/x" "/home/u" = "/srv/www/~user/x" ∧
    config.Resolve (.error (.ext 2 "getwd: no such file or directory")) "~"
      "/home/u" = "~" ∧
    config.ResolveOn filepath.IsAbsWindows (.ok "C:\\work") "docs" "C:\\Users\\u"
      = (.cwd, filepath.Join ["C:\\work", "docs"]) :=
  ⟨((Resolve_relative filepath.IsAbs "~user/x" "/home/u" (by decide) (by decide)
      (by decide) (by decide)).2.2.1 "/srv/www").trans (by decide),
   (Resolve_relative filepath.IsAbs "~" "/home/u" (by decide) (by decide)
      (by decide) (by decide)).2.2.2 (.ext 2 "getwd: no such file or directory"),
   (Resolve_relative filepath.IsAbsWindows "docs" "C:\\Users\\u" (by decide)
      (by decide) (by decide) (by decide)).1 "C:\\work"⟩

/-! ## `InferSiteURL` -/

/-- When the text after the host holds no newline, `InferSiteURL` of a URL
other than the production one is the scheme and host: the part of the URL
before the first "/" that follows the scheme. -/
theorem InferSiteURL_site (apiURL : String) (scheme : List Char)
    (hprod : apiURL ≠ "https://api.exercism.io/v1")
    (hs : scheme = "https://".data ∨ scheme = "http://".data)
    (hpre : scheme.isPrefixOf apiURL.data = true)
    (hnl : '\n' ∉ (apiURL.data.drop scheme.length).dropWhile (fun x => x != '/')) :
    config.InferSiteURL apiURL
      = String.mk (scheme ++ (apiURL.data.drop scheme.length).takeWhile (fun x => x != '/')) := by
  have hdrop : ((apiURL.data.drop scheme.length).dropWhile (fun x => x != '/')).dropWhile
      (fun x => x != '\n') = [] := by
    rw [List.dropWhile_eq_nil_iff]
    intro x hx
    have : x ≠ '\n' := fun h => hnl (h ▸ hx)
    simpa using this
  unfold config.InferSiteURL config.matchSite
  rcases hs with rfl | rfl
  · rw [show "https://".data.length = 8 from rfl] at hdrop
    simp only [hpre, if_true]
    simp [hprod, hdrop]
  · have h8 : "https://".data.isPrefixOf apiURL.data = false := by
      rcases hd : apiURL.data with _ | ⟨a, _ | ⟨b, _ | ⟨c, _ | ⟨d, _ | ⟨e, r⟩⟩⟩⟩⟩ <;>
        rw [hd] at hpre <;> simp [List.isPrefixOf] at hpre ⊢
      obtain ⟨-, -, -, -, rfl, -⟩ := hpre
      simp
    rw [show "http://".data.length = 7 from rfl] at hdrop
    simp only [h8, hpre, if_true]
    simp [hprod, hdrop]

/-- C11: on "https://example.org/api\nv2", a URL that begins with "https://",
`InferSiteURL` does not return the part before the first "/" after the scheme,
"https://example.org": the text from the newline on remains in the result. -/
theorem InferSiteURL_keeps_text_after_newline :
    config.InferSiteURL "https://example.org/api\nv2" = "https://example.org\nv2" ∧
    config.InferSiteURL "https://example.org/api\nv2" ≠ "https://example.org" := by
  decide

/-! ## `Do`: transport errors and the shape of the result -/

/-- C15: when the transport call fails with error `e`, `Do` returns no
response and the error `e` itself, and the target is as before; nothing is
decoded. -/
theorem Do_transport_error {V : Type} (env : api.Env V) (c : api.Client)
    (t : api.Transport) (req : http.Request) (v : Option V) (e : GoError)
    (hc : c.Client = some t) (ht : t req = .error e) :
    api.Do env c req v = .ret
      { res := none, err := some e, v := v,
        log := [.DumpRequest req, .ClientDo req] } := by
  simp [api.Do, hc, ht, debug.DumpRequest]

/-- Witness of C15 on a client without network. -/
theorem Do_transport_error_witness :
    api.Do sample.env
        { Client := some sample.env.DefaultHTTPClient, ContentType := "",
          Token := "abc123", BaseURL := "https://example.org/api/v2" }
        sample.req (some "old") = .ret
      { res := none,
        err := some (.ext 0 "dial tcp: network is unreachable"), v := some "old",
        log := [.DumpRequest sample.req, .ClientDo sample.req] } :=
  Do_transport_error sample.env
    { Client := some sample.env.DefaultHTTPClient, ContentType := "",
      Token := "abc123", BaseURL := "https://example.org/api/v2" }
    sample.env.DefaultHTTPClient sample.req (some "old")
    (.ext 0 "dial tcp: network is unreachable") rfl rfl

/-- C17: on a client with a transport `Do` returns, and it returns exactly one
of a response and an error: with a non-nil error the response is nil, and with
a nil error the response is the one the transport produced. -/
theorem Do_response_xor_error {V : Type} (env : api.Env V) (c : api.Client)
    (t : api.Transport) (req : http.Request) (v : Option V)
    (hc : c.Client = some t) :
    ∃ r : api.DoResult V,
      api.Do env c req v = .ret r ∧
      (r.err ≠ none → r.res = none) ∧
      (r.err = none → ∃ res, t req = .ok res ∧ r.res = some res) := by
  unfold api.Do
  simp only [hc]
  cases ht : t req with
  | error e => exact ⟨_, rfl, by simp, by simp⟩
  | ok res =>
    simp only []
    by_cases h204 : res.StatusCode = http.StatusNoContent
    · rw [if_pos h204]; exact ⟨_, rfl, by simp, by simp⟩
    rw [if_neg h204]
    by_cases h500 : res.StatusCode = http.StatusInternalServerError
    · rw [if_pos h500]; exact ⟨_, rfl, by simp, by simp⟩
    rw [if_neg h500]
    by_cases h401 : res.StatusCode = http.StatusUnauthorized
    · rw [if_pos h401]; exact ⟨_, rfl, by simp, by simp⟩
    rw [if_neg h401]
    cases v with
    | none => exact ⟨_, rfl, by simp, by simp⟩
    | some target =>
      simp only []
      rcases hd : env.jsonDecode res.Body target with ⟨target1, _ | err⟩
      · exact ⟨_, rfl, by simp, by simp⟩
      · exact ⟨_, rfl, by simp, by simp⟩

/-- Witness of C17 on a 404 response whose empty body fails to decode. -/
theorem Do_response_xor_error_witness :
    ∃ r : api.DoResult String,
      api.Do sample.env (sample.client ⟨404, "404 Not Found", ""⟩) sample.req
        (some "old") = .ret r ∧
      (r.err ≠ none → r.res = none) ∧
      (r.err = none → ∃ res,
        sample.reply ⟨404, "404 Not Found", ""⟩ sample.req = .ok res ∧
        r.res = some res) :=
  Do_response_xor_error sample.env (sample.client ⟨404, "404 Not Found", ""⟩)
    (sample.reply ⟨404, "404 Not Found", ""⟩) sample.req (some "old") rfl

/-! ## `Resolve`: the empty path and the branch for rooted paths -/

/-- C16: `Resolve` of the empty path is the empty path, for every `home` and
every outcome of `os.Getwd`, failure included. -/
theorem Resolve_empty (getwd : Except GoError String) (home : String) :
    config.Resolve getwd "" home = "" := by
  simp [config.Resolve]

/-- With the Unix `filepath.IsAbs`, `ResolveOn` returns what `Resolve` does. -/
theorem ResolveOn_unix (isAbs : String → Bool)
    (hunix : ∀ p, isAbs p = strings.HasPrefix p "/")
    (getwd : Except GoError String) (path home : String) :
    (config.ResolveOn isAbs getwd path home).2 = config.Resolve getwd path home := by
  unfold config.ResolveOn config.Resolve filepath.IsAbs
  rw [hunix]
  split_ifs <;> first | rfl | (cases getwd <;> rfl)

/-- Where a path that begins with "/" is not absolute, the branch for rooted
paths is taken. -/
theorem ResolveOn_rooted_reachable :
    config.ResolveOn (fun _ => false) (.ok "/srv/www") "/dir" "/home/u"
      = (.rooted, "/home/u/dir") := by
  decide

/-- C19: on a platform where a path is absolute exactly when it begins with
"/", `Resolve` never returns through the branch that roots a path at `home`,
and for a path that does not begin with "~/" the result is the same for every
`home`. -/
theorem Resolve_rooted_branch_dead (isAbs : String → Bool)
    (hunix : ∀ p, isAbs p = strings.HasPrefix p "/")
    (getwd : Except GoError String) (path home : String) :
    (config.ResolveOn isAbs getwd path home).1 ≠ .rooted ∧
    (config.ResolveOn isAbs getwd path home).2 = config.Resolve getwd path home ∧
    (strings.HasPrefix path "~/" = false →
      ∀ home1 : String,
        config.Resolve getwd path home1 = config.Resolve getwd path home) := by
  refine ⟨?_, ResolveOn_unix isAbs hunix getwd path home, ?_⟩
  · unfold config.ResolveOn
    rw [hunix]
    split_ifs
    · simp
    · simp
    · simp
    · cases getwd <;> simp
  · intro h home1
    unfold config.Resolve filepath.IsAbs
    rw [h]
    split_ifs with h1 h2 h3
    · rfl
    · exact absurd h2 (by simp)
    · rfl
    · rfl

/-- Witness of C19 on the Unix `IsAbs` and the path "/dir". -/
theorem Resolve_rooted_branch_dead_witness :
    (config.ResolveOn filepath.IsAbs (.ok "/srv/www") "/dir" "/home/u").1 ≠ .rooted ∧
    (config.ResolveOn filepath.IsAbs (.ok "/srv/www") "/dir" "/home/u").2
      = config.Resolve (.ok "/srv/www") "/dir" "/home/u" ∧
    (strings.HasPrefix "/dir" "~/" = false →
      ∀ home1 : String,
        config.Resolve (.ok "/srv/www") "/dir" home1
          = config.Resolve (.ok "/srv/www") "/dir" "/home/u") :=
  Resolve_rooted_branch_dead filepath.IsAbs (fun _ => rfl) (.ok "/srv/www") "/dir"
    "/home/u"

/-! ## `Write` -/

/-- The in-memory file system keeps the law of writes. -/
theorem memSys_writeLaw : sample.memSys.WriteLaw := by
  intro s s1 name data perm h
  simp only [sample.memSys] at h ⊢
  split at h
  · rename_i hc
    simp only [Bool.and_eq_true, beq_iff_eq, bne_iff_ne, ne_eq] at hc
    simp only [Prod.mk.injEq, and_true] at h
    subst h
    have hne : filepath.Dir name ≠ name := by
      intro heq
      rw [heq] at hc
      exact hc.2 hc.1
    constructor
    · simp [List.lookup]
    · have : (filepath.Dir name == name) = false := by simpa using hne
      simp [List.lookup, this, hc.1]
  · simp at h

/-- C13: `Write` stops at the first error.  A failing serialization is returned
with the filesystem untouched and no call made; a `Stat` error other than
"not found" is returned after that one call; the directory is created only
after a "not found", and a failing creation is returned without a write;
otherwise the result and the state are those of the file write. -/
theorem Write_first_error {σ α : Type} (sys : os.Sys σ) (F : config.filer α)
    (f : α) (s : σ) :
    (∀ e, F.Marshal f = .error e →
      config.Write sys F f s = { fs := s, err := some e, calls := [] }) ∧
    (∀ b e, F.Marshal f = .ok b →
      sys.Stat s (filepath.Dir (F.File f)) = some e → sys.notExist e = false →
      config.Write sys F f s
        = { fs := s, err := some e, calls := [.Stat (filepath.Dir (F.File f))] }) ∧
    (∀ b e s1 e1, F.Marshal f = .ok b →
      sys.Stat s (filepath.Dir (F.File f)) = some e → sys.notExist e = true →
      sys.MkdirAll s (filepath.Dir (F.File f)) 0o755 = (s1, some e1) →
      config.Write sys F f s
        = { fs := s1, err := some e1,
            calls := [.Stat (filepath.Dir (F.File f)),
                      .MkdirAll (filepath.Dir (F.File f)) 0o755] }) ∧
    (∀ b e s1, F.Marshal f = .ok b →
      sys.Stat s (filepath.Dir (F.File f)) = some e → sys.notExist e = true →
      sys.MkdirAll s (filepath.Dir (F.File f)) 0o755 = (s1, none) →
      config.Write sys F f s
        = { fs := (sys.WriteFile s1 (F.File f) b 0o644).1,
            err := (sys.WriteFile s1 (F.File f) b 0o644).2,
            calls := [.Stat (filepath.Dir (F.File f)),
                      .MkdirAll (filepath.Dir (F.File f)) 0o755,
                      .WriteFile (F.File f) b 0o644] }) ∧
    (∀ b, F.Marshal f = .ok b →
      sys.Stat s (filepath.Dir (F.File f)) = none →
      config.Write sys F f s
        = { fs := (sys.WriteFile s (F.File f) b 0o644).1,
            err := (sys.WriteFile s (F.File f) b 0o644).2,
            calls := [.Stat (filepath.Dir (F.File f)),
                      .WriteFile (F.File f) b 0o644] }) := by
  refine ⟨?_, ?_, ?_, ?_, ?_⟩
  · intro e hm
    simp [config.Write, hm]
  · intro b e hm hst hne
    simp [config.Write, config.ensureDir, os.IsNotExist, hm, hst, hne]
  · intro b e s1 e1 hm hst hne hmk
    simp [config.Write, config.ensureDir, os.IsNotExist, hm, hst, hne, hmk]
  · intro b e s1 hm hst hne hmk
    simp [config.Write, config.ensureDir, os.IsNotExist, hm, hst, hne, hmk]
  · intro b hm hst
    simp [config.Write, config.ensureDir, os.IsNotExist, hm, hst]

/-- Witness of C13: a value that cannot be marshalled, a denied `Stat`, a
failing directory creation, and a write after a successful creation. -/
theorem Write_first_error_witness :
    config.Write sample.memSys sample.broken "abc" [("/", .dir)]
      = { fs := [("/", .dir)],
          err := some (.ext 3 "json: unsupported type: chan int"), calls := [] } ∧
    config.Write (sample.faultySys (some sample.eacces) none) sample.settings "abc"
        [("/", .dir)]
      = { fs := [("/", .dir)], err := some sample.eacces,
          calls := [.Stat "/home/u/.config/exercism"] } ∧
    config.Write (sample.faultySys none (some sample.eacces)) sample.settings "abc"
        [("/", .dir)]
      = { fs := [("/", .dir)], err := some sample.eacces,
          calls := [.Stat "/home/u/.config/exercism",
                    .MkdirAll "/home/u/.config/exercism" 0o755] } ∧
    config.Write sample.memSys sample.settings "abc" [("/", .dir)]
      = { fs := [("/home/u/.config/exercism/user.json", .file "\x7b\"token\":\"abc\"\x7d"),
                 ("/home/u/.config/exercism", .dir), ("/", .dir)],
          err := none,
          calls := [.Stat "/home/u/.config/exercism",
                    .MkdirAll "/home/u/.config/exercism" 0o755,
                    .WriteFile "/home/u/.config/exercism/user.json"
                      "\x7b\"token\":\"abc\"\x7d" 0o644] } :=
  ⟨(Write_first_error sample.memSys sample.broken "abc" [("/", .dir)]).1
      (.ext 3 "json: unsupported type: chan int") rfl,
   (Write_first_error (sample.faultySys (some sample.eacces) none) sample.settings
      "abc" [("/", .dir)]).2.1 "\x7b\"token\":\"abc\"\x7d" sample.eacces rfl (by decide)
      (by decide),
   (Write_first_error (sample.faultySys none (some sample.eacces)) sample.settings
      "abc" [("/", .dir)]).2.2.1 "\x7b\"token\":\"abc\"\x7d" sample.enoent [("/", .dir)]
      sample.eacces rfl (by decide) (by decide) (by decide),
   (Write_first_error sample.memSys sample.settings "abc" [("/", .dir)]).2.2.2.1
      "\x7b\"token\":\"abc\"\x7d" sample.enoent
      [("/home/u/.config/exercism", .dir), ("/", .dir)] rfl (by decide) (by decide)
      (by decide)⟩

/-- C12: when the value marshals to `b`, its parent directory either exists or
is reported as not found and is then created, and the file write succeeds,
`Write` returns nil in the state the write leaves; there, on a file system
that keeps the law of writes, the parent directory is a directory and the file
holds exactly `b`, so that parsing the file is parsing `b`. -/
theorem Write_round_trip {σ α : Type} (sys : os.Sys σ) (F : config.filer α)
    (f : α) (s s1 s2 : σ) (b : String)
    (hlaw : sys.WriteLaw)
    (hm : F.Marshal f = .ok b)
    (hdir : (sys.Stat s (filepath.Dir (F.File f)) = none ∧ s1 = s) ∨
      (∃ e, sys.Stat s (filepath.Dir (F.File f)) = some e ∧ sys.notExist e = true ∧
        sys.MkdirAll s (filepath.Dir (F.File f)) 0o755 = (s1, none)))
    (hw : sys.WriteFile s1 (F.File f) b 0o644 = (s2, none)) :
    (config.Write sys F f s).err = none ∧
    (config.Write sys F f s).fs = s2 ∧
    sys.IsDir s2 (filepath.Dir (F.File f)) = true ∧
    sys.ReadFile s2 (F.File f) = some b ∧
    ∀ (J : Type) (parse : String → J),
      (sys.ReadFile s2 (F.File f)).map parse = some (parse b) := by
  obtain ⟨hread, hisdir⟩ := hlaw s1 s2 (F.File f) b 0o644 hw
  have hwrite : (config.Write sys F f s).err = none ∧ (config.Write sys F f s).fs = s2 := by
    rcases hdir with ⟨hst, rfl⟩ | ⟨e, hst, hne, hmk⟩
    · simp [config.Write, config.ensureDir, os.IsNotExist, hm, hst, hw]
    · simp [config.Write, config.ensureDir, os.IsNotExist, hm, hst, hne, hmk, hw]
  refine ⟨hwrite.1, hwrite.2, hisdir, hread, ?_⟩
  intro J parse
  rw [hread]
  rfl

/-- Witness of C12 on the in-memory file system, the parent directory missing. -/
theorem Write_round_trip_witness :
    (config.Write sample.memSys sample.settings "abc" [("/", .dir)]).err = none ∧
    (config.Write sample.memSys sample.settings "abc" [("/", .dir)]).fs
      = [("/home/u/.config/exercism/user.json", .file "\x7b\"token\":\"abc\"\x7d"),
         ("/home/u/.config/exercism", .dir), ("/", .dir)] ∧
    sample.memSys.IsDir
      [("/home/u/.config/exercism/user.json", .file "\x7b\"token\":\"abc\"\x7d"),
       ("/home/u/.config/exercism", .dir), ("/", .dir)]
      (filepath.Dir "/home/u/.config/exercism/user.json") = true ∧
    sample.memSys.ReadFile
      [("/home/u/.config/exercism/user.json", .file "\x7b\"token\":\"abc\"\x7d"),
       ("/home/u/.config/exercism", .dir), ("/", .dir)]
      "/home/u/.config/exercism/user.json" = some "\x7b\"token\":\"abc\"\x7d" ∧
    ∀ (J : Type) (parse : String → J),
      (sample.memSys.ReadFile
        [("/home/u/.config/exercism/user.json", .file "\x7b\"token\":\"abc\"\x7d"),
         ("/home/u/.config/exercism", .dir), ("/", .dir)]
        "/home/u/.config/exercism/user.json").map parse
        = some (parse "\x7b\"token\":\"abc\"\x7d") :=
  Write_round_trip sample.memSys sample.settings "abc" [("/", .dir)]
    [("/home/u/.config/exercism", .dir), ("/", .dir)]
    [("/home/u/.config/exercism/user.json", .file "\x7b\"token\":\"abc\"\x7d"),
     ("/home/u/.config/exercism", .dir), ("/", .dir)]
    "\x7b\"token\":\"abc\"\x7d" memSys_writeLaw rfl
    (Or.inr ⟨sample.enoent, by decide, by decide, by decide⟩) (by decide)

/-! ## `Clean` as a fold over path elements -/

section CleanElements

open filepath

theorem cleanLoop_elem (rooted : Bool) (fuel : Nat) (c : Char) (rest out : List Char)
    (dd : Nat) (hc : IsPathSeparator c = false) :
    cleanLoop rooted (fuel + 1) (c :: rest) out dd =
      cleanLoop rooted fuel ((c :: rest).dropWhile (fun x => !IsPathSeparator x))
        (bufStep rooted (out, dd) ((c :: rest).takeWhile (fun x => !IsPathSeparator x))).1
        (bufStep rooted (out, dd) ((c :: rest).takeWhile (fun x => !IsPathSeparator x))).2 := by
  rw [cleanLoop]
  simp only [hc, Bool.false_eq_true, if_false]
  by_cases hdot : c = '.'
  · subst hdot
    rcases rest with _ | ⟨d, rest1⟩
    · simp [bufStep, hc]
    · by_cases hd : IsPathSeparator d = true
      · simp [bufStep, hc, hd, startsSep]
      · have hd' : IsPathSeparator d = false := by simpa using hd
        by_cases hdd : d = '.'
        · subst hdd
          rcases rest1 with _ | ⟨e, rest2⟩
          · simp [bufStep, hc, startsSep]
            split_ifs <;> rfl
          · by_cases he : IsPathSeparator e = true
            · simp [bufStep, hc, he, startsSep]
              split_ifs <;> rfl
            · have he' : IsPathSeparator e = false := by simpa using he
              simp [bufStep, hc, he', startsSep]
        · simp [bufStep, hc, hd', hdd, startsSep]
  · simp [bufStep, hc, hdot]

theorem splitSep_ne_nil (l : List Char) : splitSep l ≠ [] := by
  cases l with
  | nil => simp [splitSep]
  | cons c cs =>
    rw [splitSep]
    split_ifs
    · simp
    · split <;> simp

theorem splitSep_eq (l : List Char) :
    splitSep l = l.takeWhile (fun x => !IsPathSeparator x) ::
      (match l.dropWhile (fun x => !IsPathSeparator x) with
       | [] => []
       | _ :: r => splitSep r) := by
  induction l with
  | nil => simp [splitSep]
  | cons c cs ih =>
    by_cases hc : IsPathSeparator c = true
    · simp [splitSep, hc]
    · have hc' : IsPathSeparator c = false := by simpa using hc
      rw [splitSep, if_neg hc, ih]
      simp [hc']

theorem bufStep_nil (rooted : Bool) (st : List Char × Nat) : bufStep rooted st [] = st := by
  simp [bufStep]

theorem cleanLoop_eq_fold (rooted : Bool) :
    ∀ (fuel : Nat) (inp out : List Char) (dd : Nat), inp.length ≤ fuel →
      cleanLoop rooted fuel inp out dd
        = ((splitSep inp).foldl (bufStep rooted) (out, dd)).1 := by
  intro fuel
  induction fuel with
  | zero =>
    intro inp out dd h
    have : inp = [] := List.length_eq_zero.mp (Nat.le_zero.mp h)
    subst this
    simp [cleanLoop, splitSep, bufStep_nil]
  | succ n ih =>
    intro inp out dd h
    cases inp with
    | nil => simp [cleanLoop, splitSep, bufStep_nil]
    | cons c rest =>
      simp only [List.length_cons, Nat.add_le_add_iff_right] at h
      by_cases hc : IsPathSeparator c = true
      · rw [cleanLoop, if_pos hc, ih rest out dd h]
        simp [splitSep, hc, bufStep_nil]
      · have hc' : IsPathSeparator c = false := by simpa using hc
        have hlen : ((c :: rest).dropWhile (fun x => !IsPathSeparator x)).length ≤ n := by
          rw [List.dropWhile_cons]
          simp only [hc', Bool.not_false, if_true]
          exact ((List.dropWhile_suffix _).length_le).trans h
        rw [cleanLoop_elem rooted n c rest out dd hc', ih _ _ _ hlen, splitSep_eq (c :: rest)]
        rw [List.foldl_cons]
        rcases hd : (c :: rest).dropWhile (fun x => !IsPathSeparator x) with _ | ⟨s, r⟩
        · simp [splitSep, bufStep_nil]
        · have hs := List.head?_dropWhile_not (fun x => !IsPathSeparator x) (c :: rest)
          rw [hd] at hs
          have hs' : IsPathSeparator s = true := by simpa using hs
          simp [splitSep, hs', bufStep_nil]

theorem joinSep_concat (xs : List (List Char)) (e : List Char) :
    joinSep (xs ++ [e]) = if xs = [] then e else joinSep xs ++ Separator :: e := by
  induction xs with
  | nil => simp [joinSep]
  | cons x xs ih =>
    cases xs with
    | nil => simp [joinSep]
    | cons y ys =>
      have h1 : (x :: y :: ys) ++ [e] = x :: y :: (ys ++ [e]) := rfl
      have h2 : (y :: ys) ++ [e] = y :: (ys ++ [e]) := rfl
      rw [h2] at ih
      rw [h1, joinSep, ih]
      simp [joinSep]

theorem joinSep_length_le (a b : List (List Char)) :
    (joinSep a).length ≤ (joinSep (a ++ b)).length := by
  induction b using List.reverseRecOn with
  | nil => simp
  | append_singleton b y ih =>
    rw [← List.append_assoc, joinSep_concat]
    split_ifs with h
    · have ha : a = [] := (List.append_eq_nil.mp h).1
      subst ha
      simp [joinSep]
    · simp only [List.length_append, List.length_cons]
      omega

theorem joinSep_eq_nil (xs : List (List Char)) (h : ∀ e ∈ xs, e ≠ []) :
    joinSep xs = [] ↔ xs = [] := by
  constructor
  · intro hj
    cases xs with
    | nil => rfl
    | cons x xs =>
      exfalso
      have hx := h x (List.mem_cons_self _ _)
      cases xs with
      | nil => exact hx (by simpa [joinSep] using hj)
      | cons y ys =>
        simp only [joinSep] at hj
        exact hx (List.append_eq_nil.mp hj).1
  · rintro rfl
    rfl

theorem scanBack_eq (out : List Char) (dd m : Nat) :
    ∀ j : Nat, m ≤ j → dd ≤ m →
      (m = dd ∨ IsPathSeparator (out.getD m Separator) = true) →
      (∀ i, m < i → i ≤ j → IsPathSeparator (out.getD i Separator) = false) →
      scanBack out dd j = m := by
  intro j
  induction j with
  | zero =>
    intro hm _ _ _
    have : m = 0 := Nat.le_zero.mp hm
    subst this
    rfl
  | succ j ih =>
    intro hm hdd hstop hrun
    by_cases hmj : m = j + 1
    · subst hmj
      rw [scanBack]
      have hcond : (decide (j + 1 > dd) &&
          !IsPathSeparator (out.getD (j + 1) Separator)) = false := by
        rcases hstop with h | h
        · have : ¬ (j + 1 > dd) := by omega
          simp [this]
        · rw [h]; simp
      simp only [hcond, Bool.false_eq_true, if_false]
    · have hmj' : m ≤ j := by omega
      rw [scanBack]
      have h1 : j + 1 > dd := by omega
      have h2 := hrun (j + 1) (by omega) (le_refl _)
      have hcond : (decide (j + 1 > dd) &&
          !IsPathSeparator (out.getD (j + 1) Separator)) = true := by
        rw [h2]; simp [h1]
      simp only [hcond, if_true]
      exact ih hmj' hdd hstop (fun i hi hij => hrun i hi (by omega))

theorem getD_sepFree (x : List Char) (hx : ∀ c ∈ x, IsPathSeparator c = false)
    (t : Nat) (ht : t < x.length) (d : Char) : IsPathSeparator (x.getD t d) = false := by
  rw [List.getD_eq_getElem _ _ ht]
  exact hx _ (List.getElem_mem _)

theorem scanBack_sep (P x : List Char) (dd : Nat)
    (hx : ∀ c ∈ x, IsPathSeparator c = false) (hdd : dd ≤ P.length) :
    scanBack (P ++ Separator :: x) dd (P.length + x.length) = P.length := by
  apply scanBack_eq _ _ _ _ (by omega) hdd
  · right
    rw [List.getD_append_right _ _ _ _ (le_refl _)]
    simp [IsPathSeparator]
  · intro i hi hij
    rw [List.getD_append_right _ _ _ _ (by omega)]
    obtain ⟨t, ht⟩ : ∃ t, i - P.length = t + 1 := ⟨i - P.length - 1, by omega⟩
    rw [ht, List.getD_cons_succ]
    exact getD_sepFree x hx t (by omega) _

theorem scanBack_nosep (P x : List Char)
    (hx : ∀ c ∈ x, IsPathSeparator c = false) (hne : x ≠ []) :
    scanBack (P ++ x) P.length (P.length + x.length - 1) = P.length := by
  have hpos : 0 < x.length := List.length_pos.mpr hne
  apply scanBack_eq _ _ _ _ (by omega) (le_refl _) (Or.inl rfl)
  intro i hi hij
  rw [List.getD_append_right _ _ _ _ (by omega)]
  exact getD_sepFree x hx _ (by omega) _

theorem elems_ne_nil (k : Nat) (stk : List (List Char)) (hstk : ∀ x ∈ stk, Regular x) :
    ∀ x ∈ List.replicate k ['.', '.'] ++ stk, x ≠ [] := by
  intro x hx
  rcases List.mem_append.mp hx with h | h
  · rw [(List.mem_replicate.mp h).2]; simp
  · exact (hstk x h).1

theorem render_nil_length_le (rooted : Bool) (k : Nat) (stk : List (List Char)) :
    (render rooted (k, [])).length ≤ (render rooted (k, stk)).length := by
  simp only [render, List.append_nil, List.length_append]
  have := joinSep_length_le (List.replicate k ['.', '.']) stk
  omega

theorem bufStep_dotdot_gt (rooted : Bool) (out : List Char) (dd : Nat)
    (h : out.length > dd) :
    bufStep rooted (out, dd) ['.', '.']
      = (out.take (scanBack out dd (out.length - 1)), dd) := by
  simp [bufStep, h]

theorem bufStep_render_dotdot_pop (rooted : Bool) (k : Nat) (s : List (List Char))
    (x : List Char) (hs : ∀ y ∈ s, Regular y) (hx : Regular x) :
    bufStep rooted (render rooted (k, s ++ [x]), (render rooted (k, [])).length) ['.', '.']
      = (render rooted (k, s), (render rooted (k, [])).length) := by
  have hdd := render_nil_length_le rooted k s
  have hxs : ∀ c ∈ x, IsPathSeparator c = false := hx.2.2.2
  have hxlen : 0 < x.length := List.length_pos.mpr hx.1
  have hout : render rooted (k, s ++ [x]) =
      if List.replicate k ['.', '.'] ++ s = [] then render rooted (k, s) ++ x
      else render rooted (k, s) ++ Separator :: x := by
    simp only [render]
    rw [← List.append_assoc, joinSep_concat]
    by_cases h2 : List.replicate k ['.', '.'] ++ s = []
    · simp only [h2, if_true, joinSep, List.append_nil]
    · simp only [h2, if_false, List.append_assoc]
  by_cases hL : List.replicate k ['.', '.'] ++ s = []
  · rw [if_pos hL] at hout
    have hs0 : s = [] := (List.append_eq_nil.mp hL).2
    subst hs0
    have hsb := scanBack_nosep (render rooted (k, [])) x hxs hx.1
    have hlen : (render rooted (k, []) ++ x).length > (render rooted (k, [])).length := by
      simp only [List.length_append]; omega
    have hl1 : (render rooted (k, []) ++ x).length - 1
        = (render rooted (k, [])).length + x.length - 1 := by
      simp only [List.length_append]
    rw [hout, bufStep_dotdot_gt _ _ _ hlen, hl1, hsb, List.take_left' rfl]
  · rw [if_neg hL] at hout
    have hsb := scanBack_sep (render rooted (k, s)) x (render rooted (k, [])).length hxs hdd
    have hlen : (render rooted (k, s) ++ Separator :: x).length
        > (render rooted (k, [])).length := by
      simp only [List.length_append, List.length_cons]; omega
    have hl1 : (render rooted (k, s) ++ Separator :: x).length - 1
        = (render rooted (k, s)).length + x.length := by
      simp only [List.length_append, List.length_cons]; omega
    rw [hout, bufStep_dotdot_gt _ _ _ hlen, hl1, hsb, List.take_left' rfl]

theorem render_push (rooted : Bool) (k : Nat) (stk : List (List Char)) (e : List Char)
    (hstk : ∀ x ∈ stk, Regular x) :
    render rooted (k, stk ++ [e]) =
      (if (rooted && (render rooted (k, stk)).length != 1) ||
          (!rooted && (render rooted (k, stk)).length != 0) then
        render rooted (k, stk) ++ [Separator]
      else render rooted (k, stk)) ++ e := by
  have hne := elems_ne_nil k stk hstk
  have hnil := joinSep_eq_nil _ hne
  simp only [render]
  rw [← List.append_assoc, joinSep_concat]
  by_cases hL : List.replicate k ['.', '.'] ++ stk = []
  · have hj : joinSep (List.replicate k ['.', '.'] ++ stk) = [] := hnil.mpr hL
    rw [if_pos hL, hj]
    cases rooted <;> simp
  · have hj : joinSep (List.replicate k ['.', '.'] ++ stk) ≠ [] := fun h => hL (hnil.mp h)
    have hpos : 0 < (joinSep (List.replicate k ['.', '.'] ++ stk)).length :=
      List.length_pos.mpr hj
    rw [if_neg hL]
    cases rooted
    · have h1 : ((false && ([] ++ joinSep (List.replicate k ['.', '.'] ++ stk)).length != 1) ||
          (!false && ([] ++ joinSep (List.replicate k ['.', '.'] ++ stk)).length != 0)) = true := by
        simp [hj]
      simp only [Bool.false_eq_true, if_false, h1, if_true]
      simp
    · have h1 : ((true && ([Separator] ++ joinSep (List.replicate k ['.', '.'] ++ stk)).length != 1) ||
          (!true && ([Separator] ++ joinSep (List.replicate k ['.', '.'] ++ stk)).length != 0)) = true := by
        simp [hj]
      simp only [if_true, h1]
      simp

theorem render_succ (k : Nat) :
    render false (k + 1, []) = render false (k, [['.', '.']]) := by
  simp only [render, List.append_nil]
  rw [List.replicate_succ']

theorem bufStep_dotdot_le (out : List Char) :
    bufStep false (out, out.length) ['.', '.']
      = ((if (false && out.length != 1) || (!false && out.length != 0) then
            out ++ [Separator] else out) ++ ['.', '.'],
         ((if (false && out.length != 1) || (!false && out.length != 0) then
            out ++ [Separator] else out) ++ ['.', '.']).length) := by
  by_cases h : out.length = 0
  · simp [bufStep, h]
  · have : 0 < out.length := by omega
    simp [bufStep, h, this]

theorem bufStep_render (rooted : Bool) (k : Nat) (stk : List (List Char)) (e : List Char)
    (hk : rooted = true → k = 0) (hstk : ∀ x ∈ stk, Regular x) :
    bufStep rooted (render rooted (k, stk), (render rooted (k, [])).length) e
      = (render rooted (absStep rooted (k, stk) e),
         (render rooted ((absStep rooted (k, stk) e).1, [])).length) := by
  by_cases h0 : e = [] ∨ e = ['.']
  · simp [bufStep, absStep, h0]
  by_cases h2 : e = ['.', '.']
  · subst h2
    rcases List.eq_nil_or_concat stk with hs | ⟨s, x, hs⟩
    · subst hs
      cases rooted
      · have habs : absStep false (k, []) ['.', '.'] = (k + 1, []) := by simp [absStep]
        have hr := render_push false k [] ['.', '.'] (by simp)
        rw [habs, bufStep_dotdot_le, render_succ]
        exact Prod.ext hr.symm (by rw [← hr]; rfl)
      · have hk0 := hk rfl
        subst hk0
        simp [bufStep, absStep, render, joinSep]
    · rw [List.concat_eq_append] at hs
      subst hs
      have hs' : ∀ y ∈ s, Regular y := fun y hy => hstk y (List.mem_append_left _ hy)
      have hx : Regular x := hstk x (List.mem_append_right _ (List.mem_singleton_self _))
      rw [bufStep_render_dotdot_pop rooted k s x hs' hx]
      simp [absStep]
  · have h0' : ¬ (e = [] ∨ e = ['.']) := h0
    simp only [bufStep, absStep, h0', h2, if_false]
    rw [render_push rooted k stk e hstk]

theorem splitSep_sepFree (l : List Char) :
    ∀ e ∈ splitSep l, ∀ c ∈ e, IsPathSeparator c = false := by
  induction l with
  | nil => simp [splitSep]
  | cons a l ih =>
    by_cases ha : IsPathSeparator a = true
    · rw [splitSep, if_pos ha]
      intro e he
      rcases List.mem_cons.mp he with rfl | h
      · simp
      · exact ih e h
    · have ha' : IsPathSeparator a = false := by simpa using ha
      rw [splitSep, if_neg ha]
      rcases hs : splitSep l with _ | ⟨x, xs⟩
      · exact absurd hs (splitSep_ne_nil l)
      · rw [hs] at ih
        intro e he
        rcases List.mem_cons.mp he with rfl | h
        · intro c hc
          rcases List.mem_cons.mp hc with rfl | h'
          · exact ha'
          · exact ih x (List.mem_cons_self _ _) c h'
        · exact ih e (List.mem_cons_of_mem _ h)

theorem absStep_inv (rooted : Bool) (k : Nat) (stk : List (List Char)) (e : List Char)
    (hk : rooted = true → k = 0) (hstk : ∀ x ∈ stk, Regular x)
    (he : ∀ c ∈ e, IsPathSeparator c = false) :
    (rooted = true → (absStep rooted (k, stk) e).1 = 0) ∧
    ∀ x ∈ (absStep rooted (k, stk) e).2, Regular x := by
  unfold absStep
  by_cases h0 : e = [] ∨ e = ['.']
  · rw [if_pos h0]; exact ⟨hk, hstk⟩
  rw [if_neg h0]
  by_cases h2 : e = ['.', '.']
  · rw [if_pos h2]
    by_cases hs : stk = []
    · subst hs
      cases rooted <;> simp [hk]
    · simp only [ne_eq, hs, not_false_eq_true, if_true]
      exact ⟨hk, fun x hx => hstk x (List.dropLast_subset _ hx)⟩
  · rw [if_neg h2]
    refine ⟨hk, ?_⟩
    intro x hx
    rcases List.mem_append.mp hx with h | h
    · exact hstk x h
    · rw [List.mem_singleton] at h
      subst h
      exact ⟨fun h => h0 (Or.inl h), fun h => h0 (Or.inr h), h2, he⟩

theorem fold_render (rooted : Bool) :
    ∀ (els : List (List Char)) (k : Nat) (stk : List (List Char)),
      (∀ e ∈ els, ∀ c ∈ e, IsPathSeparator c = false) →
      (rooted = true → k = 0) → (∀ x ∈ stk, Regular x) →
      els.foldl (bufStep rooted) (render rooted (k, stk), (render rooted (k, [])).length)
        = (render rooted (els.foldl (absStep rooted) (k, stk)),
           (render rooted ((els.foldl (absStep rooted) (k, stk)).1, [])).length) ∧
      (rooted = true → (els.foldl (absStep rooted) (k, stk)).1 = 0) ∧
      ∀ x ∈ (els.foldl (absStep rooted) (k, stk)).2, Regular x := by
  intro els
  induction els with
  | nil => intro k stk _ hk hstk; exact ⟨rfl, hk, hstk⟩
  | cons e els ih =>
    intro k stk hels hk hstk
    have he := hels e (List.mem_cons_self _ _)
    have hinv := absStep_inv rooted k stk e hk hstk he
    rw [List.foldl_cons, List.foldl_cons, bufStep_render rooted k stk e hk hstk]
    exact ih _ _ (fun x hx => hels x (List.mem_cons_of_mem _ hx)) hinv.1 hinv.2

theorem cleanElems_inv (rooted : Bool) (inp : List Char) :
    (rooted = true → (cleanElems rooted inp).1 = 0) ∧
    ∀ x ∈ (cleanElems rooted inp).2, Regular x :=
  (fold_render rooted (splitSep inp) 0 [] (splitSep_sepFree inp) (fun _ => rfl)
    (by simp)).2

theorem cleanLoop_render (rooted : Bool) (fuel : Nat) (inp : List Char)
    (h : inp.length ≤ fuel) :
    cleanLoop rooted fuel inp (render rooted (0, [])) (render rooted (0, [])).length
      = render rooted (cleanElems rooted inp) := by
  rw [cleanLoop_eq_fold rooted fuel inp _ _ h,
    (fold_render rooted (splitSep inp) 0 [] (splitSep_sepFree inp) (fun _ => rfl)
      (by simp)).1]
  rfl

theorem Clean_rooted (path : String) (rest : List Char)
    (h : path.data = Separator :: rest) :
    Clean path = String.mk (render true (cleanElems true rest)) := by
  have hl := cleanLoop_render true (rest.length + 1) rest (Nat.le_succ _)
  have hr : render true (0, []) = [Separator] := rfl
  rw [hr] at hl
  have hne : render true (cleanElems true rest) ≠ [] := by simp [render]
  unfold Clean
  rw [h]
  simp only [show IsPathSeparator Separator = true from rfl, if_true]
  simp only [List.length_singleton] at hl
  rw [hl]
  simp [hne]

theorem Clean_unrooted (path : String) (c : Char) (rest : List Char)
    (h : path.data = c :: rest) (hc : IsPathSeparator c = false) :
    Clean path =
      if render false (cleanElems false (c :: rest)) = [] then "."
      else String.mk (render false (cleanElems false (c :: rest))) := by
  have hl := cleanLoop_render false (rest.length + 1) (c :: rest) (le_refl _)
  have hr : render false (0, []) = [] := rfl
  rw [hr] at hl
  unfold Clean
  rw [h]
  simp only [hc, Bool.false_eq_true, if_false]
  simp only [List.length_nil] at hl
  rw [hl]
  simp

theorem absStep_nil (rooted : Bool) (st : Nat × List (List Char)) :
    absStep rooted st [] = st := by
  simp [absStep]

theorem absStep_regular (rooted : Bool) (k : Nat) (stk : List (List Char))
    (e : List Char) (he : Regular e) :
    absStep rooted (k, stk) e = (k, stk ++ [e]) := by
  have h0 : ¬ (e = [] ∨ e = ['.']) := fun h => h.elim he.1 he.2.1
  simp only [absStep, h0, he.2.2.1, if_false]

theorem fold_regular (rooted : Bool) :
    ∀ (xs : List (List Char)) (k : Nat) (stk : List (List Char)),
      (∀ e ∈ xs, Regular e) →
      xs.foldl (absStep rooted) (k, stk) = (k, stk ++ xs) := by
  intro xs
  induction xs with
  | nil => intro k stk _; simp
  | cons x xs ih =>
    intro k stk h
    rw [List.foldl_cons, absStep_regular rooted k stk x (h x (List.mem_cons_self _ _)),
      ih k _ (fun e he => h e (List.mem_cons_of_mem _ he))]
    simp

theorem fold_dotdots (n k : Nat) :
    (List.replicate n ['.', '.']).foldl (absStep false) (k, []) = (k + n, []) := by
  induction n generalizing k with
  | zero => rfl
  | succ n ih =>
    rw [List.replicate_succ, List.foldl_cons]
    have : absStep false (k, []) ['.', '.'] = (k + 1, []) := by simp [absStep]
    rw [this, ih]
    congr 1
    omega

theorem splitSep_append_sep (a b : List Char) :
    splitSep (a ++ Separator :: b) = splitSep a ++ splitSep b := by
  induction a with
  | nil => simp [splitSep, show IsPathSeparator Separator = true from rfl]
  | cons c a ih =>
    by_cases hc : IsPathSeparator c = true
    · simp [splitSep, hc, ih]
    · rw [List.cons_append, splitSep, if_neg hc, ih, splitSep, if_neg hc]
      rcases hs : splitSep a with _ | ⟨x, xs⟩
      · exact absurd hs (splitSep_ne_nil a)
      · simp

theorem splitSep_sepFree_self (e : List Char)
    (he : ∀ c ∈ e, IsPathSeparator c = false) : splitSep e = [e] := by
  induction e with
  | nil => rfl
  | cons c e ih =>
    have hc := he c (List.mem_cons_self _ _)
    rw [splitSep, if_neg (by simp [hc]), ih (fun x hx => he x (List.mem_cons_of_mem _ hx))]

theorem splitSep_joinSep (xs : List (List Char)) (hne : xs ≠ [])
    (h : ∀ e ∈ xs, ∀ c ∈ e, IsPathSeparator c = false) :
    splitSep (joinSep xs) = xs := by
  induction xs with
  | nil => exact absurd rfl hne
  | cons x xs ih =>
    cases xs with
    | nil => exact splitSep_sepFree_self x (h x (List.mem_cons_self _ _))
    | cons y ys =>
      rw [joinSep, splitSep_append_sep,
        splitSep_sepFree_self x (h x (List.mem_cons_self _ _)),
        ih (by simp) (fun e he => h e (List.mem_cons_of_mem _ he))]
      rfl

theorem regular_sepFree (xs : List (List Char)) (h : ∀ e ∈ xs, Regular e) :
    ∀ e ∈ xs, ∀ c ∈ e, IsPathSeparator c = false :=
  fun e he => (h e he).2.2.2

/-- The elements of a cleaned rooted path, with or without a trailing
separator, are the elements it was rendered from. -/
theorem cleanElems_rooted_render (stk : List (List Char)) (h : ∀ e ∈ stk, Regular e) :
    cleanElems true (joinSep stk) = (0, stk) ∧
    cleanElems true (joinSep stk ++ [Separator]) = (0, stk) := by
  unfold cleanElems
  rw [splitSep_append_sep]
  by_cases hs : stk = []
  · subst hs
    simp [joinSep, splitSep, absStep_nil]
  · rw [splitSep_joinSep stk hs (regular_sepFree stk h), List.foldl_append,
      fold_regular true stk 0 [] h]
    simp [splitSep, absStep_nil]

/-- The same for a path that is not rooted, after its leading `..` elements. -/
theorem cleanElems_unrooted_render (k : Nat) (stk : List (List Char))
    (h : ∀ e ∈ stk, Regular e) (hne : List.replicate k ['.', '.'] ++ stk ≠ []) :
    cleanElems false (joinSep (List.replicate k ['.', '.'] ++ stk)) = (k, stk) ∧
    cleanElems false (joinSep (List.replicate k ['.', '.'] ++ stk) ++ [Separator])
      = (k, stk) := by
  have hsf : ∀ e ∈ List.replicate k ['.', '.'] ++ stk,
      ∀ c ∈ e, IsPathSeparator c = false := by
    intro e he
    rcases List.mem_append.mp he with h1 | h1
    · rw [(List.mem_replicate.mp h1).2]
      decide
    · exact (h e h1).2.2.2
  have hfold : (List.replicate k ['.', '.'] ++ stk).foldl (absStep false) (0, [])
      = (k, stk) := by
    rw [List.foldl_append, fold_dotdots, fold_regular false stk _ [] h]
    simp
  unfold cleanElems
  rw [splitSep_append_sep, splitSep_joinSep _ hne hsf]
  refine ⟨hfold, ?_⟩
  rw [List.foldl_append, hfold]
  simp [splitSep, absStep_nil]

theorem strings_Join_pair (a b : String) :
    (strings.Join [a, b] (String.singleton Separator)).data
      = a.data ++ Separator :: b.data := by
  simp [strings.Join, String.intercalate, String.intercalate.go, String.singleton,
    Separator]

theorem strings_Join_single (a : String) :
    strings.Join [a] (String.singleton Separator) = a := by
  simp [strings.Join, String.intercalate, String.intercalate.go]

theorem cleanElems_cons_sep (rooted : Bool) (rest : List Char) :
    cleanElems rooted (Separator :: rest) = cleanElems rooted rest := by
  unfold cleanElems
  rw [splitSep, if_pos (by rfl), List.foldl_cons, absStep_nil]

/-- `Clean` in terms of the elements kept: for every path. -/
theorem Clean_eq (path : String) :
    Clean path =
      if render (startsSep path.data) (cleanElems (startsSep path.data) path.data) = []
      then "."
      else String.mk
        (render (startsSep path.data) (cleanElems (startsSep path.data) path.data)) := by
  rcases hd : path.data with _ | ⟨c, rest⟩
  · have : Clean path = "." := by unfold Clean; rw [hd]
    rw [this]
    simp [startsSep, cleanElems, splitSep, absStep_nil, render, joinSep]
  · by_cases hc : IsPathSeparator c = true
    · have hcs : c = Separator := by simpa [IsPathSeparator] using hc
      subst hcs
      rw [Clean_rooted path rest hd]
      simp only [startsSep, hc, cleanElems_cons_sep]
      simp [render]
    · have hc' : IsPathSeparator c = false := by simpa using hc
      rw [Clean_unrooted path c rest hd hc']
      simp only [startsSep, hc']

theorem startsSep_append (a b : List Char) (h : a ≠ []) :
    startsSep (a ++ b) = startsSep a := by
  cases a with
  | nil => exact absurd rfl h
  | cons c a => rfl

theorem startsSep_joinSep (L : List (List Char)) (hne : L ≠ [])
    (h : ∀ e ∈ L, e ≠ [] ∧ ∀ c ∈ e, IsPathSeparator c = false) :
    startsSep (joinSep L) = false ∧ joinSep L ≠ [] := by
  cases L with
  | nil => exact absurd rfl hne
  | cons x xs =>
    obtain ⟨hx, hxs⟩ := h x (List.mem_cons_self _ _)
    cases x with
    | nil => exact absurd rfl hx
    | cons a x =>
      have ha := hxs a (List.mem_cons_self _ _)
      cases xs with
      | nil => simp [joinSep, startsSep, ha]
      | cons y ys => simp [joinSep, startsSep, ha]

theorem elems_ok (k : Nat) (stk : List (List Char)) (h : ∀ e ∈ stk, Regular e) :
    ∀ e ∈ List.replicate k ['.', '.'] ++ stk,
      e ≠ [] ∧ ∀ c ∈ e, IsPathSeparator c = false := by
  intro e he
  rcases List.mem_append.mp he with h1 | h1
  · rw [(List.mem_replicate.mp h1).2]
    exact ⟨by simp, by decide⟩
  · exact ⟨(h e h1).1, (h e h1).2.2.2⟩

/-- A cleaned rooted path is left as it is by `Clean`, also with a separator
at its end. -/
theorem Clean_fix_rooted (stk : List (List Char)) (h : ∀ e ∈ stk, Regular e) :
    Clean (String.mk (Separator :: joinSep stk)) = String.mk (Separator :: joinSep stk) ∧
    Clean (String.mk (Separator :: (joinSep stk ++ [Separator])))
      = String.mk (Separator :: joinSep stk) := by
  obtain ⟨h1, h2⟩ := cleanElems_rooted_render stk h
  constructor
  · rw [Clean_rooted _ (joinSep stk) rfl, h1]
    simp [render]
  · rw [Clean_rooted _ (joinSep stk ++ [Separator]) rfl, h2]
    simp [render]

/-- A cleaned path that is not rooted and not "." is left as it is by `Clean`,
also with a separator at its end. -/
theorem Clean_fix_unrooted (k : Nat) (stk : List (List Char))
    (h : ∀ e ∈ stk, Regular e) (hne : List.replicate k ['.', '.'] ++ stk ≠ []) :
    Clean (String.mk (joinSep (List.replicate k ['.', '.'] ++ stk)))
      = String.mk (joinSep (List.replicate k ['.', '.'] ++ stk)) ∧
    Clean (String.mk (joinSep (List.replicate k ['.', '.'] ++ stk) ++ [Separator]))
      = String.mk (joinSep (List.replicate k ['.', '.'] ++ stk)) := by
  obtain ⟨h1, h2⟩ := cleanElems_unrooted_render k stk h hne
  obtain ⟨hs, hj⟩ := startsSep_joinSep _ hne (elems_ok k stk h)
  have hr : render false (k, stk) = joinSep (List.replicate k ['.', '.'] ++ stk) := by
    simp [render]
  constructor
  · rw [Clean_eq]
    simp only [hs, h1, hr, hj, if_false]
  · rw [Clean_eq]
    simp only [startsSep_append _ _ hj, hs, h2, hr, hj, if_false]

/-- `Clean` is idempotent. -/
theorem Clean_idem (path : String) : Clean (Clean path) = Clean path := by
  obtain ⟨hk, hstk⟩ := cleanElems_inv (startsSep path.data) path.data
  rcases hst : cleanElems (startsSep path.data) path.data with ⟨k, stk⟩
  rw [hst] at hk hstk
  simp only at hk hstk
  have hC := Clean_eq path
  rw [hst] at hC
  by_cases hout : render (startsSep path.data) (k, stk) = []
  · rw [if_pos hout] at hC
    rw [hC]
    decide
  · rw [if_neg hout] at hC
    rw [hC]
    cases hr : startsSep path.data with
    | true =>
      have hk0 := hk hr
      subst hk0
      have := (Clean_fix_rooted stk hstk).1
      simpa [render] using this
    | false =>
      rw [hr] at hout
      have hne : List.replicate k ['.', '.'] ++ stk ≠ [] := by
        intro h0
        apply hout
        simp [render, h0, joinSep]
      have := (Clean_fix_unrooted k stk hstk hne).1
      simpa [render] using this

/-- `Clean` of a path that begins with the separator begins with it. -/
theorem Clean_hasPrefix (path : String) (h : strings.HasPrefix path "/" = true) :
    strings.HasPrefix (Clean path) "/" = true := by
  have hd := hasPrefix_singleton path '/' h
  rw [Clean_rooted path _ hd]
  simp [strings.HasPrefix, render, List.isPrefixOf, Separator]

theorem Join_pair (a b : String) (ha : a ≠ "") :
    Join [a, b] = Clean (String.mk (a.data ++ Separator :: b.data)) := by
  have hj : strings.Join [a, b] (String.singleton Separator)
      = String.mk (a.data ++ Separator :: b.data) := by
    apply String.ext
    exact strings_Join_pair a b
  simp only [Join, bne_iff_ne, ne_eq, ha, not_false_eq_true, if_true]
  rw [hj]

theorem Join_pair_hasPrefix (a b : String) (ha : strings.HasPrefix a "/" = true) :
    ∃ p : String, strings.HasPrefix p "/" = true ∧ Join [a, b] = Clean p := by
  have hd := hasPrefix_singleton a '/' ha
  have hne := string_ne_empty_of_data a _ _ hd
  refine ⟨String.mk (a.data ++ Separator :: b.data), ?_, Join_pair a b hne⟩
  rw [hd]
  simp [strings.HasPrefix, List.isPrefixOf]

/-- For a non-empty path, under an absolute `home` and an absolute working
directory, `Resolve` is `Clean` of a path that begins with the separator. -/
theorem Resolve_clean_form (cwd home path : String) (hp : path ≠ "")
    (hh : strings.HasPrefix home "/" = true) (hc : strings.HasPrefix cwd "/" = true) :
    ∃ p : String, strings.HasPrefix p "/" = true ∧
      config.Resolve (.ok cwd) path home = Clean p := by
  unfold config.Resolve
  simp only [beq_iff_eq, hp, if_false]
  by_cases h1 : strings.HasPrefix path "~/" = true
  · rw [if_pos h1]
    exact Join_pair_hasPrefix home _ hh
  rw [if_neg h1]
  by_cases h2 : IsAbs path = true
  · rw [if_pos h2]
    exact ⟨path, h2, rfl⟩
  rw [if_neg h2]
  have h3 : ¬ strings.HasPrefix path "/" = true := h2
  rw [if_neg h3]
  exact Join_pair_hasPrefix cwd path hc

/-- `Resolve` of a cleaned path that begins with the separator is that path. -/
theorem Resolve_of_cleaned (getwd : Except GoError String) (r home : String)
    (hr : strings.HasPrefix r "/" = true) (hcl : Clean r = r) :
    config.Resolve getwd r home = r := by
  have hd := hasPrefix_singleton r '/' hr
  have hne := string_ne_empty_of_data r _ _ hd
  have hno : strings.HasPrefix r "~/" = false := by
    unfold strings.HasPrefix
    rw [hd]
    simp [List.isPrefixOf]
  simp [config.Resolve, hne, hno, filepath.IsAbs, hr, hcl]


theorem cleanElems_append_elem (rooted : Bool) (inp elem : List Char)
    (he : Regular elem) :
    cleanElems rooted (inp ++ Separator :: elem)
      = ((cleanElems rooted inp).1, (cleanElems rooted inp).2 ++ [elem]) := by
  unfold cleanElems
  rw [splitSep_append_sep, List.foldl_append, splitSep_sepFree_self elem he.2.2.2,
    List.foldl_cons, List.foldl_nil]
  exact absStep_regular rooted _ _ elem he

/-- `Clean` of a non-empty directory, a separator and a regular element: the
result ends with the element, and what stands before it is empty or ends with
a separator and cleans to the cleaned directory. -/
theorem Clean_append_elem (dir : String) (elem : List Char) (hd : dir.data ≠ [])
    (he : Regular elem) :
    ∃ Q : List Char,
      Clean (String.mk (dir.data ++ Separator :: elem)) = String.mk (Q ++ elem) ∧
      (Q = [] ∨ ∃ Q1, Q = Q1 ++ [Separator]) ∧
      Clean (String.mk Q) = Clean dir := by
  obtain ⟨hk, hstk⟩ := cleanElems_inv (startsSep dir.data) dir.data
  have hA := cleanElems_append_elem (startsSep dir.data) dir.data elem he
  rcases hst : cleanElems (startsSep dir.data) dir.data with ⟨k, stk⟩
  rw [hst] at hk hstk hA
  simp only at hk hstk hA
  have hC := Clean_eq (String.mk (dir.data ++ Separator :: elem))
  simp only [startsSep_append _ _ hd, hA] at hC
  have hD := Clean_eq dir
  rw [hst] at hD
  cases hr : startsSep dir.data with
  | true =>
    have hk0 := hk hr
    subst hk0
    rw [hr] at hC hD
    have hren : render true (0, stk ++ [elem]) = Separator :: joinSep (stk ++ [elem]) := by
      simp [render]
    have hrd : render true (0, stk) = Separator :: joinSep stk := by simp [render]
    rw [hren, if_neg (by simp)] at hC
    rw [hrd, if_neg (by simp)] at hD
    rw [hC, hD, joinSep_concat]
    by_cases hs : stk = []
    · subst hs
      refine ⟨[Separator], by simp, Or.inr ⟨[], rfl⟩, ?_⟩
      exact (Clean_fix_rooted [] (by simp)).1
    · refine ⟨Separator :: (joinSep stk ++ [Separator]), by simp [hs],
        Or.inr ⟨Separator :: joinSep stk, rfl⟩, ?_⟩
      exact (Clean_fix_rooted stk hstk).2
  | false =>
    rw [hr] at hC hD
    have hren : render false (k, stk ++ [elem])
        = joinSep ((List.replicate k ['.', '.'] ++ stk) ++ [elem]) := by
      simp [render]
    have hrd : render false (k, stk) = joinSep (List.replicate k ['.', '.'] ++ stk) := by
      simp [render]
    rw [hren, joinSep_concat] at hC
    rw [hrd] at hD
    by_cases hL : List.replicate k ['.', '.'] ++ stk = []
    · rw [if_pos hL, if_neg he.1] at hC
      rw [hL] at hD
      refine ⟨[], by rw [hC]; rfl, Or.inl rfl, ?_⟩
      rw [hD]
      rfl
    · obtain ⟨-, hj⟩ := startsSep_joinSep _ hL (elems_ok k stk hstk)
      rw [if_neg hL, if_neg (by simp)] at hC
      rw [if_neg hj] at hD
      refine ⟨joinSep (List.replicate k ['.', '.'] ++ stk) ++ [Separator],
        by rw [hC]; simp, Or.inr ⟨_, rfl⟩, ?_⟩
      rw [hD]
      exact (Clean_fix_unrooted k stk hstk hL).2

theorem rdropWhile_append_all (p : Char → Bool) (Q e : List Char)
    (h : ∀ c ∈ e, p c = true) :
    (Q ++ e).rdropWhile p = Q.rdropWhile p := by
  induction e using List.reverseRecOn with
  | nil => simp
  | append_singleton e z ih =>
    rw [← List.append_assoc, List.rdropWhile_concat_pos _ _ _ (h z (by simp))]
    exact ih (fun c hc => h c (List.mem_append_left _ hc))

theorem rtakeWhile_append_all (p : Char → Bool) (Q e : List Char)
    (h : ∀ c ∈ e, p c = true) :
    (Q ++ e).rtakeWhile p = Q.rtakeWhile p ++ e := by
  induction e using List.reverseRecOn with
  | nil => simp
  | append_singleton e z ih =>
    rw [← List.append_assoc, List.rtakeWhile_concat_pos _ _ _ (h z (by simp)),
      ih (fun c hc => h c (List.mem_append_left _ hc)), List.append_assoc]

/-- `Dir` and `Base` of a path that ends with a regular element after nothing
or after a separator. -/
theorem Dir_Base_of_elem (p : String) (Q elem : List Char) (hp : p.data = Q ++ elem)
    (he : Regular elem) (hQ : Q = [] ∨ ∃ Q1, Q = Q1 ++ [Separator]) :
    Dir p = Clean (String.mk Q) ∧ Base p = String.mk elem := by
  have hsf : ∀ c ∈ elem, (fun x => !IsPathSeparator x) c = true := by
    intro c hc
    simp [he.2.2.2 c hc]
  have hQd : Q.rdropWhile (fun x => !IsPathSeparator x) = Q := by
    rcases hQ with rfl | ⟨Q1, rfl⟩
    · simp
    · exact List.rdropWhile_concat_neg _ _ _ (by simp [IsPathSeparator])
  have hQt : Q.rtakeWhile (fun x => !IsPathSeparator x) = [] := by
    rcases hQ with rfl | ⟨Q1, rfl⟩
    · simp
    · exact List.rtakeWhile_concat_neg _ _ _ (by simp [IsPathSeparator])
  constructor
  · unfold Dir
    rw [hp, rdropWhile_append_all _ Q elem hsf, hQd]
  · obtain ⟨e1, z, rfl⟩ : ∃ e1 z, elem = e1 ++ [z] := by
      rcases List.eq_nil_or_concat elem with h | ⟨e1, z, h⟩
      · exact absurd h he.1
      · exact ⟨e1, z, by rw [h, List.concat_eq_append]⟩
    have hz : IsPathSeparator z = false := he.2.2.2 z (by simp)
    have hne : p ≠ "" := by
      intro h
      rw [h] at hp
      simp at hp
    have hstrip : p.data.rdropWhile IsPathSeparator = p.data := by
      rw [hp, ← List.append_assoc]
      exact List.rdropWhile_concat_neg _ _ _ (by simp [hz])
    unfold Base
    simp only [beq_iff_eq, hne, if_false, hstrip]
    rw [hp, rtakeWhile_append_all _ Q _ hsf, hQt]
    simp

theorem json_name_regular (name : String)
    (hname : ∀ c ∈ name.data, IsPathSeparator c = false) :
    Regular (name ++ ".json").data := by
  have hd : (name ++ ".json").data = name.data ++ ['.', 'j', 's', 'o', 'n'] := by
    rw [String.data_append]
  have hlen : (name ++ ".json").data.length = name.data.length + 5 := by
    rw [hd]; simp
  refine ⟨?_, ?_, ?_, ?_⟩
  · intro h; rw [h] at hlen; simp at hlen
  · intro h; rw [h] at hlen; simp at hlen
  · intro h; rw [h] at hlen; simp at hlen
  · intro c hc
    rw [hd] at hc
    rcases List.mem_append.mp hc with h | h
    · exact hname c h
    · have hall : ∀ x ∈ ['.', 'j', 's', 'o', 'n'], IsPathSeparator x = false := by
        decide
      exact hall c h


end CleanElements

/-! ## `Resolve` is idempotent; the path of a `Config` -/

/-- C18: under an absolute `home` and a known, absolute working directory,
`Resolve` is idempotent, and for a non-empty path its result is absolute and
is its own cleaned form. -/
theorem Resolve_idempotent (cwd home path : String)
    (hh : strings.HasPrefix home "/" = true) (hc : strings.HasPrefix cwd "/" = true) :
    config.Resolve (.ok cwd) (config.Resolve (.ok cwd) path home) home
      = config.Resolve (.ok cwd) path home ∧
    (path ≠ "" →
      filepath.IsAbs (config.Resolve (.ok cwd) path home) = true ∧
      filepath.Clean (config.Resolve (.ok cwd) path home)
        = config.Resolve (.ok cwd) path home) := by
  by_cases hp : path = ""
  · subst hp
    have h0 : config.Resolve (.ok cwd) "" home = "" := by simp [config.Resolve]
    rw [h0, h0]
    exact ⟨rfl, fun h => absurd rfl h⟩
  · obtain ⟨p, hpre, hres⟩ := Resolve_clean_form cwd home path hp hh hc
    have habs : strings.HasPrefix (config.Resolve (.ok cwd) path home) "/" = true := by
      rw [hres]; exact Clean_hasPrefix p hpre
    have hcl : filepath.Clean (config.Resolve (.ok cwd) path home)
        = config.Resolve (.ok cwd) path home := by
      rw [hres]; exact Clean_idem p
    exact ⟨Resolve_of_cleaned _ _ home habs hcl, fun _ => ⟨habs, hcl⟩⟩

/-- Witness of C18 on a home-relative path with `..` and `.` elements. -/
theorem Resolve_idempotent_witness :
    config.Resolve (.ok "/srv/www")
        (config.Resolve (.ok "/srv/www") "~/a/../b/./c//" "/home/u") "/home/u"
      = config.Resolve (.ok "/srv/www") "~/a/../b/./c//" "/home/u" ∧
    (("~/a/../b/./c//" : String) ≠ "" →
      filepath.IsAbs (config.Resolve (.ok "/srv/www") "~/a/../b/./c//" "/home/u") = true ∧
      filepath.Clean (config.Resolve (.ok "/srv/www") "~/a/../b/./c//" "/home/u")
        = config.Resolve (.ok "/srv/www") "~/a/../b/./c//" "/home/u") :=
  Resolve_idempotent "/srv/www" "/home/u" "~/a/../b/./c//" (by decide) (by decide)

/-- C14: for a name without a separator, `File()` of `New(dir, name)` is the
join of `dir` and `name + ".json"`; its last element is `name + ".json"` and
its directory is `dir` in cleaned form, which is therefore the directory that
`ensureDir` looks for. -/
theorem Config_File_path (dir name : String)
    (hname : ∀ c ∈ name.data, filepath.IsPathSeparator c = false) :
    (config.New dir name).File = filepath.Join [dir, name ++ ".json"] ∧
    filepath.Base (config.New dir name).File = name ++ ".json" ∧
    filepath.Dir (config.New dir name).File = filepath.Clean dir ∧
    ∀ (σ : Type) (sys : os.Sys σ) (s : σ),
      (config.ensureDir sys config.Config.filer (config.New dir name) s).calls.head?
        = some (.Stat (filepath.Clean dir)) := by
  have he := json_name_regular name hname
  have hform : ∃ Q : List Char,
      (config.New dir name).File = String.mk (Q ++ (name ++ ".json").data) ∧
      (Q = [] ∨ ∃ Q1, Q = Q1 ++ [filepath.Separator]) ∧ filepath.Clean (String.mk Q) = filepath.Clean dir := by
    have hF : (config.New dir name).File = filepath.Join [dir, name ++ ".json"] := rfl
    rw [hF]
    by_cases hd : dir = ""
    · subst hd
      have hne : name ++ ".json" ≠ "" := by
        intro h
        have := he.1
        rw [h] at this
        exact this rfl
      refine ⟨[], ?_, Or.inl rfl, rfl⟩
      have hj : filepath.Join ["", name ++ ".json"] = filepath.Clean (name ++ ".json") := by
        simp [filepath.Join, hne, strings_Join_single]
      rw [hj]
      have := (Clean_fix_unrooted 0 [(name ++ ".json").data]
        (by simpa using he) (by simp)).1
      simpa [filepath.joinSep] using this
    · have hdd : dir.data ≠ [] := by
        intro h
        apply hd
        exact String.ext h
      rw [Join_pair dir _ hd]
      exact Clean_append_elem dir _ hdd he
  obtain ⟨Q, hQ, hQs, hQc⟩ := hform
  obtain ⟨hDir, hBase⟩ :=
    Dir_Base_of_elem (config.New dir name).File Q (name ++ ".json").data
      (by rw [hQ]) he hQs
  refine ⟨rfl, hBase, hDir.trans hQc, ?_⟩
  intro σ sys s
  have hd : filepath.Dir (config.Config.filer.File (config.New dir name)) = filepath.Clean dir :=
    hDir.trans hQc
  unfold config.ensureDir
  simp only [hd]
  split_ifs <;> rfl

/-- Witness of C14 on the directory "/home/u/.config/exercism//" and the name
"user". -/
theorem Config_File_path_witness :
    (config.New "/home/u/.config/exercism//" "user").File
      = filepath.Join ["/home/u/.config/exercism//", "user" ++ ".json"] ∧
    filepath.Base (config.New "/home/u/.config/exercism//" "user").File = "user" ++ ".json" ∧
    filepath.Dir (config.New "/home/u/.config/exercism//" "user").File
      = filepath.Clean "/home/u/.config/exercism//" ∧
    ∀ (σ : Type) (sys : os.Sys σ) (s : σ),
      (config.ensureDir sys config.Config.filer
        (config.New "/home/u/.config/exercism//" "user") s).calls.head?
        = some (.Stat (filepath.Clean "/home/u/.config/exercism//")) :=
  Config_File_path "/home/u/.config/exercism//" "user" (by decide)
